import Mathlib

/-!
Verification of the ShowScraper ingestion pipeline.

This file gives a shallow embedding, in Lean 4, of the core of the
show-scraper repository: the normalizer (`normalize_event`, `parse_local`,
`parse_price` from `src-tauri/src/normalize.rs`), the event store
(`upsert_event`, `pending_posts`, `pending_with_days`, `mark_posted`,
`get_event` from `src-tauri/src/db.rs`), the bucketing IPC command
(`list_pending_buckets` from `src-tauri/src/main.rs`), the draft composer
(`compose`, `fallback` from `src-tauri/src/llm.rs`), and the frontend bucket
normalization (`normalizeBuckets` from `src/lib/types.ts`).

Modelling conventions:
* Rust machine integers are `Nat`/`Int`; all values handled here are tiny,
  so no wraparound is modelled.
* Serialized JSON payloads are modelled as the structured `Event` value
  itself (serde round-trips are identities for this data).
* SQLite TEXT comparison is byte-wise `memcmp`; all compared strings here
  are ASCII, so it is modelled as lexicographic comparison of code points.
* `chrono` timestamp handling is modelled at whole-second precision;
  fractional seconds are not modelled.  `chrono_tz` named-zone resolution is
  modelled by a fixed-offset table at standard offsets (DST transitions are
  not modelled; no claim in this development depends on them).
* SHA-256 is implemented in full (FIPS 180-4) over byte lists.
-/

namespace ShowScraper

/-! ## Byte and string utilities -/

/-- UTF-8 encoding of one character (model of Rust `str::as_bytes`). -/
def utf8Char (c : Char) : List Nat :=
  let n := c.toNat
  if n < 0x80 then [n]
  else if n < 0x800 then [0xC0 + n / 64, 0x80 + n % 64]
  else if n < 0x10000 then [0xE0 + n / 4096, 0x80 + (n / 64) % 64, 0x80 + n % 64]
  else [0xF0 + n / 262144, 0x80 + (n / 4096) % 64, 0x80 + (n / 64) % 64, 0x80 + n % 64]

/-- UTF-8 encoding of a string as a byte list. -/
def utf8 (s : String) : List Nat := s.toList.flatMap utf8Char

/-- Lowercase hex digit for a value below 16 (model of Rust `{:x}` digits). -/
def hexDigit (n : Nat) : Char :=
  if n < 10 then Char.ofNat (48 + n) else Char.ofNat (87 + n)

/-- Two lowercase hex digits of a byte. -/
def hexByte (b : Nat) : List Char := [hexDigit (b / 16), hexDigit (b % 16)]

/-- Lowercase hex rendering of a byte list (model of Rust `format!("{:x}", digest)`). -/
def hexStr (bs : List Nat) : String := String.mk (bs.flatMap hexByte)

/-- ASCII lowercasing of one character (model of Rust `str::to_lowercase`;
the artist names in this development are ASCII, so only the ASCII range is
modelled). -/
def lowerChar (c : Char) : Char :=
  if 65 ≤ c.toNat ∧ c.toNat ≤ 90 then Char.ofNat (c.toNat + 32) else c

/-- Model of Rust `str::to_lowercase` (ASCII range). -/
def lowerStr (s : String) : String := String.mk (s.toList.map lowerChar)

/-- Byte-wise `memcmp`-style `≤` on code-point lists: the SQLite BINARY
collation used by TEXT comparisons (the compared strings are ASCII). -/
def lexLeCh : List Char → List Char → Bool
  | [], _ => true
  | _ :: _, [] => false
  | a :: as, b :: bs =>
    if a.toNat < b.toNat then true
    else if b.toNat < a.toNat then false
    else lexLeCh as bs

/-- SQLite TEXT `s >= t` under BINARY collation. -/
def strGeB (s t : String) : Bool := lexLeCh t.toList s.toList

/-- SQLite TEXT `s <= t` under BINARY collation (used for `ORDER BY ... ASC`). -/
def strLeB (s t : String) : Bool := lexLeCh s.toList t.toList

/-! ## SHA-256 (FIPS 180-4), over `Nat` words

Model of the `sha2` crate's `Sha256` as used by `normalize_event`. -/

/-- 32-bit addition modulo `2^32`. -/
def wadd (a b : Nat) : Nat := (a + b) % 4294967296

def wxor (a b : Nat) : Nat := a.xor b

def wand (a b : Nat) : Nat := a.land b

/-- Bitwise complement of a 32-bit word. -/
def wnot (a : Nat) : Nat := 4294967295 - a

/-- Right rotation of a 32-bit word by `n`. -/
def rotr (n a : Nat) : Nat :=
  ((a >>> n) ||| (a <<< (32 - n))) % 4294967296

def shr (n a : Nat) : Nat := a >>> n

def bigSigma0 (x : Nat) : Nat := wxor (rotr 2 x) (wxor (rotr 13 x) (rotr 22 x))

def bigSigma1 (x : Nat) : Nat := wxor (rotr 6 x) (wxor (rotr 11 x) (rotr 25 x))

def smallSigma0 (x : Nat) : Nat := wxor (rotr 7 x) (wxor (rotr 18 x) (shr 3 x))

def smallSigma1 (x : Nat) : Nat := wxor (rotr 17 x) (wxor (rotr 19 x) (shr 10 x))

def chF (x y z : Nat) : Nat := wxor (wand x y) (wand (wnot x) z)

def majF (x y z : Nat) : Nat := wxor (wand x y) (wxor (wand x z) (wand y z))

/-- The 64 SHA-256 round constants. -/
def shaK : List Nat :=
  [1116352408, 1899447441, 3049323471, 3921009573, 961987163,
   1508970993, 2453635748, 2870763221, 3624381080, 310598401,
   607225278, 1426881987, 1925078388, 2162078206, 2614888103,
   3248222580, 3835390401, 4022224774, 264347078, 604807628,
   770255983, 1249150122, 1555081692, 1996064986, 2554220882,
   2821834349, 2952996808, 3210313671, 3336571891, 3584528711,
   113926993, 338241895, 666307205, 773529912, 1294757372,
   1396182291, 1695183700, 1986661051, 2177026350, 2456956037,
   2730485921, 2820302411, 3259730800, 3345764771, 3516065817,
   3600352804, 4094571909, 275423344, 430227734, 506948616,
   659060556, 883997877, 958139571, 1322822218, 1537002063,
   1747873779, 1955562222, 2024104815, 2227730452, 2361852424,
   2428436474, 2756734187, 3204031479, 3329325298]

/-- The SHA-256 initial hash state. -/
def shaH0 : List Nat :=
  [1779033703, 3144134277, 1013904242, 2773480762, 1359893119,
   2600822924, 528734635, 1541459225]

/-- SHA-256 padding: append `0x80`, zeros, and the 64-bit big-endian bit length. -/
def shaPad (msg : List Nat) : List Nat :=
  let len := msg.length
  let bitLen := len * 8
  let zeros := (55 - len % 64) % 64
  let lenBytes := (List.range 8).map (fun i => (bitLen >>> ((7 - i) * 8)) % 256)
  msg ++ [0x80] ++ List.replicate zeros 0 ++ lenBytes

/-- Group a byte list into big-endian 32-bit words. -/
def toWords : List Nat → List Nat
  | b0 :: b1 :: b2 :: b3 :: rest => (((b0 * 256 + b1) * 256 + b2) * 256 + b3) :: toWords rest
  | _ => []

/-- Extend the 16 block words into the 64-entry message schedule. -/
def scheduleAux : Nat → List Nat → List Nat
  | 0, acc => acc
  | n + 1, acc =>
    let t := acc.length
    let w15 := acc.getD (t - 15) 0
    let w2 := acc.getD (t - 2) 0
    let w16 := acc.getD (t - 16) 0
    let w7 := acc.getD (t - 7) 0
    scheduleAux n (acc ++ [wadd (wadd (smallSigma1 w2) w7) (wadd (smallSigma0 w15) w16)])

def schedule (ws : List Nat) : List Nat := scheduleAux 48 ws

/-- One round of the SHA-256 compression function on the 8-word state. -/
def shaRound (st : List Nat) (kw : Nat × Nat) : List Nat :=
  match st with
  | [a, b, c, d, e, f, g, h] =>
    let t1 := wadd h (wadd (bigSigma1 e) (wadd (chF e f g) (wadd kw.1 kw.2)))
    let t2 := wadd (bigSigma0 a) (majF a b c)
    [wadd t1 t2, a, b, c, wadd d t1, e, f, g]
  | st => st

/-- Process one 64-byte block. -/
def shaCompress (h : List Nat) (block : List Nat) : List Nat :=
  let ws := schedule (toWords block)
  let st := (shaK.zip ws).foldl shaRound h
  (h.zip st).map (fun p => wadd p.1 p.2)

/-- Split into 64-byte chunks (fuel-structured so the kernel can reduce it). -/
def chunksAux : Nat → List Nat → List (List Nat)
  | 0, _ => []
  | _, [] => []
  | fuel + 1, l => l.take 64 :: chunksAux fuel (l.drop 64)

def chunks (l : List Nat) : List (List Nat) := chunksAux l.length l

/-- SHA-256 digest (32 bytes) of a byte message. -/
def sha256 (msg : List Nat) : List Nat :=
  let hs := (chunks (shaPad msg)).foldl shaCompress shaH0
  hs.flatMap (fun w => [(w >>> 24) % 256, (w >>> 16) % 256, (w >>> 8) % 256, w % 256])

/-! ## Price parsing

Model of `parse_price` in `src-tauri/src/normalize.rs`:

    let re = regex::Regex::new(r"\$?(\d{1,3})(?:\s* [- / –] \s*\$?(\d{1,3}))?").unwrap();
    if let Some(c) = re.captures(txt) {
      let a = c.get(1).and_then(|m| m.as_str().parse::<i64>().ok());
      let b = c.get(2).and_then(|m| m.as_str().parse::<i64>().ok());
      return (a.map(|v| v*100), b.map(|v| v*100));
    }
    (None, None)

The regex is embedded directly as a matcher: at the leftmost matching
position, `\$?` optionally consumes a dollar sign, `(\d{1,3})` greedily
captures one to three digits, and the optional second group consumes
whitespace, a separator (`-`, `/`, or `–`), whitespace, an optional dollar
sign and one to three more digits.  No backtracking beyond `\$?` is needed
because everything after each digit group is optional or final. -/

def isDigitCh (c : Char) : Bool := 48 ≤ c.toNat ∧ c.toNat ≤ 57

/-- Model of the regex class `\s` (ASCII whitespace; the Unicode extras of
the Rust regex crate are not exercised by this repository's inputs). -/
def isSpaceCh (c : Char) : Bool :=
  c = ' ' ∨ c = '\t' ∨ c = '\n' ∨ c = '\r' ∨ c.toNat = 11 ∨ c.toNat = 12

/-- The separator class: hyphen, slash, or en-dash. -/
def isSepCh (c : Char) : Bool := c = '-' ∨ c = '/' ∨ c = '–'

def digitVal (c : Char) : Nat := c.toNat - 48

/-- Numeric value of a digit string (model of `str::parse::<i64>` on a
one-to-three digit capture, which always succeeds). -/
def digitsVal (ds : List Char) : Nat := ds.foldl (fun a c => a * 10 + digitVal c) 0

/-- Greedy `(\d{1,3})`: capture up to three leading digits; fail if none. -/
def take3Digits (l : List Char) : Option (Nat × List Char) :=
  let ds := (l.takeWhile isDigitCh).take 3
  if ds.isEmpty then none else some (digitsVal ds, l.drop ds.length)

/-- Greedy `\$?` followed by `(\d{1,3})`.  If a dollar sign is present but
not followed by a digit, the regex backtracks to the empty alternative,
which then also fails on the dollar sign itself. -/
def dollarDigits (l : List Char) : Option (Nat × List Char) :=
  match l with
  | '$' :: rest => take3Digits rest
  | _ => take3Digits l

/-- The optional second group `(?:\s* [- / –] \s*\$?(\d{1,3}))?`. -/
def matchSecond (l : List Char) : Option Nat :=
  let l1 := l.dropWhile isSpaceCh
  match l1 with
  | c :: rest =>
    if isSepCh c then
      (dollarDigits (rest.dropWhile isSpaceCh)).map (·.1)
    else none
  | [] => none

/-- Attempt the whole pattern at the current position. -/
def matchAt (l : List Char) : Option (Nat × Option Nat) :=
  (dollarDigits l).map (fun p => (p.1, matchSecond p.2))

/-- Leftmost match: try each successive start position. -/
def findMatch : List Char → Option (Nat × Option Nat)
  | [] => none
  | c :: rest =>
    match matchAt (c :: rest) with
    | some r => some r
    | none => findMatch rest

/-- `parse_price` from `normalize.rs`: both capture values are scaled to
integer cents. -/
def parse_price (s : Option String) : Option Int × Option Int :=
  match s with
  | some txt =>
    match findMatch txt.toList with
    | some (a, b) => (some ((a : Int) * 100), b.map (fun (v : Nat) => (v : Int) * 100))
    | none => (none, none)
  | none => (none, none)

def parse_price_min (s : Option String) : Option Int := (parse_price s).1

def parse_price_max (s : Option String) : Option Int := (parse_price s).2

/-! ## JSON values

Model of `serde_json::Value`, used for the opaque `extra` field and for the
text-generation response body. -/

inductive Json where
  | null : Json
  | bool (b : Bool) : Json
  | num (n : Int) : Json
  | str (s : String) : Json
  | arr (items : List Json) : Json
  | obj (fields : List (String × Json)) : Json

/-- Model of `serde_json::Value` indexing by object key (`v["k"]`): missing
keys and non-objects yield `null`. -/
def jGet (v : Json) (k : String) : Json :=
  match v with
  | .obj fields => ((fields.find? (fun f => f.1 == k)).map (·.2)).getD .null
  | _ => .null

/-- Model of `serde_json::Value` indexing by array position (`v[i]`). -/
def jIdx (v : Json) (i : Nat) : Json :=
  match v with
  | .arr items => (items.get? i).getD .null
  | _ => .null

/-- Model of `serde_json::Value::as_str`. -/
def jAsStr (v : Json) : Option String :=
  match v with
  | .str s => some s
  | _ => none

/-! ## Data model

`RawEvent` from `src-tauri/src/scraping/base.rs` and `Event` from
`src-tauri/src/models.rs`. -/

structure RawEvent where
  source : String
  venue_id : String
  venue_name : String
  event_url : Option String
  ticket_url : Option String
  start : String
  timezone : String
  artists : List String
  price_text : Option String
  extra : Json

structure Event where
  id : String
  source : String
  venue_id : String
  venue_name : Option String
  venue_url : Option String
  start_local : Option String
  start_utc : String
  doors_local : Option String
  artists : List String
  is_all_ages : Option Bool
  ticket_url : Option String
  event_url : Option String
  price_min_cents : Option Int
  price_max_cents : Option Int
  currency : Option String
  tags : List String
  scraped_at_utc : String
  extra : Json

/-! ## Civil time

Gregorian date arithmetic (the standard days-from-civil and civil-from-days
algorithms), used to model `chrono` timestamp parsing and formatting and
SQLite's `julianday`/`datetime` at whole-second precision. -/

/-- Serial day number (days since 1970-01-01) of a Gregorian date. -/
def daysFromCivil (y m d : Int) : Int :=
  let y' := if m ≤ 2 then y - 1 else y
  let era := y'.ediv 400
  let yoe := y' - era * 400
  let mp := (m + 9).emod 12
  let doy := (153 * mp + 2).ediv 5 + d - 1
  let doe := yoe * 365 + yoe.ediv 4 - yoe.ediv 100 + doy
  era * 146097 + doe - 719468

/-- Gregorian date of a serial day number. -/
def civilFromDays (z0 : Int) : Int × Int × Int :=
  let z := z0 + 719468
  let era := z.ediv 146097
  let doe := z - era * 146097
  let yoe := (doe - doe.ediv 1460 + doe.ediv 36524 - doe.ediv 146096).ediv 365
  let y := yoe + era * 400
  let doy := doe - (365 * yoe + yoe.ediv 4 - yoe.ediv 100)
  let mp := (5 * doy + 2).ediv 153
  let d := doy - (153 * mp + 2).ediv 5 + 1
  let m := mp + (if mp < 10 then 3 else -9)
  (y + (if m ≤ 2 then 1 else 0), m, d)

def isLeapYear (y : Int) : Bool :=
  (y.emod 4 == 0 && y.emod 100 != 0) || y.emod 400 == 0

def daysInMonth (y m : Int) : Int :=
  if m = 2 then (if isLeapYear y then 29 else 28)
  else if m = 4 ∨ m = 6 ∨ m = 9 ∨ m = 11 then 30
  else 31

/-- Validity of a civil date-time, as enforced by `chrono`'s parsers. -/
def validCivil (y m d h mi s : Int) : Bool :=
  1 ≤ m && m ≤ 12 && 1 ≤ d && d ≤ daysInMonth y m &&
  0 ≤ h && h ≤ 23 && 0 ≤ mi && mi ≤ 59 && 0 ≤ s && s ≤ 59

/-- Epoch seconds of a civil date-time (no offset applied). -/
def civilSecs (y m d h mi s : Int) : Int :=
  daysFromCivil y m d * 86400 + h * 3600 + mi * 60 + s

/-- A `chrono::DateTime<FixedOffset>`: the local civil time as epoch-style
seconds, together with the offset from UTC in seconds. -/
structure FixedDT where
  localSecs : Int
  offsetSecs : Int
  deriving DecidableEq

/-- UTC epoch seconds of a `FixedDT`. -/
def FixedDT.utcSecs (dt : FixedDT) : Int := dt.localSecs - dt.offsetSecs

/-! ### Timestamp parsing -/

/-- Read exactly `n` ASCII digits, returning their value and the rest. -/
def readDigits : Nat → List Char → Option (Nat × List Char)
  | 0, l => some (0, l)
  | n + 1, c :: rest =>
    if isDigitCh c then
      (readDigits n rest).map (fun p => (digitVal c * 10 ^ n + p.1, p.2))
    else none
  | _ + 1, [] => none

def expectCh (c : Char) : List Char → Option (List Char)
  | c' :: rest => if c = c' then some rest else none
  | [] => none

/-- Parse `HH:MM` of a numeric offset. -/
def readOffsetHM (l : List Char) : Option Int :=
  match readDigits 2 l with
  | some (oh, rest) =>
    match expectCh ':' rest with
    | some rest =>
      match readDigits 2 rest with
      | some (om, []) => if oh ≤ 23 && om ≤ 59 then some ((oh : Int) * 3600 + om * 60) else none
      | _ => none
    | none => none
  | none => none

/-- Model of `chrono::DateTime::parse_from_rfc3339`, at whole-second
precision: `YYYY-MM-DDTHH:MM:SS` followed by `Z` or a numeric offset.
Fractional seconds and leap seconds are not modelled. -/
def parseRFC3339 (str : String) : Option FixedDT :=
  match readDigits 4 str.toList with
  | none => none
  | some (y, l) =>
  match expectCh '-' l with
  | none => none
  | some l =>
  match readDigits 2 l with
  | none => none
  | some (m, l) =>
  match expectCh '-' l with
  | none => none
  | some l =>
  match readDigits 2 l with
  | none => none
  | some (d, l) =>
  match l with
  | sep :: l =>
    if sep = 'T' ∨ sep = 't' then
      match readDigits 2 l with
      | none => none
      | some (h, l) =>
      match expectCh ':' l with
      | none => none
      | some l =>
      match readDigits 2 l with
      | none => none
      | some (mi, l) =>
      match expectCh ':' l with
      | none => none
      | some l =>
      match readDigits 2 l with
      | none => none
      | some (s, l) =>
      if validCivil y m d h mi s then
        match l with
        | ['Z'] => some ⟨civilSecs y m d h mi s, 0⟩
        | ['z'] => some ⟨civilSecs y m d h mi s, 0⟩
        | '+' :: rest =>
          (readOffsetHM rest).map (fun off => ⟨civilSecs y m d h mi s, off⟩)
        | '-' :: rest =>
          (readOffsetHM rest).map (fun off => ⟨civilSecs y m d h mi s, -off⟩)
        | _ => none
      else none
    else none
  | [] => none

/-- Model of `NaiveDateTime::parse_from_str(s, "%Y-%m-%d %H:%M")`: the whole
input must match, and the civil values must be in range.  Returns naive
epoch-style seconds. -/
def parseNaiveYmdHm (str : String) : Option Int :=
  match readDigits 4 str.toList with
  | none => none
  | some (y, l) =>
  match expectCh '-' l with
  | none => none
  | some l =>
  match readDigits 2 l with
  | none => none
  | some (m, l) =>
  match expectCh '-' l with
  | none => none
  | some l =>
  match readDigits 2 l with
  | none => none
  | some (d, l) =>
  match expectCh ' ' l with
  | none => none
  | some l =>
  match readDigits 2 l with
  | none => none
  | some (h, l) =>
  match expectCh ':' l with
  | none => none
  | some l =>
  match readDigits 2 l with
  | some (mi, []) =>
    if validCivil y m d h mi 0 then some (civilSecs y m d h mi 0) else none
  | _ => none

/-- Model of `chrono_tz::Tz::from_str(tz).unwrap_or(America::Los_Angeles)`
followed by local-to-offset resolution.  Named zones are modelled at their
standard (non-DST) offsets; an unknown name falls back to
America/Los_Angeles exactly as the `unwrap_or` in `parse_local` does.
With fixed offsets a local time is never ambiguous, so the `.earliest()`
failure branch of the source cannot fire in this model. -/
def tzOffsetSecs (tz : String) : Int :=
  if tz = "UTC" then 0
  else if tz = "America/New_York" then -18000
  else if tz = "America/Chicago" then -21600
  else if tz = "America/Denver" then -25200
  else if tz = "America/Los_Angeles" then -28800
  else -28800

/-- `parse_local` from `src-tauri/src/normalize.rs`: strict RFC 3339 first,
then the naive `"%Y-%m-%d %H:%M"` fallback paired with the named zone. -/
def parse_local (s tz : String) : Option FixedDT :=
  match parseRFC3339 s with
  | some dt => some dt
  | none =>
    match parseNaiveYmdHm s with
    | some naive => some ⟨naive, tzOffsetSecs tz⟩
    | none => none

/-! ### Timestamp formatting -/

/-- Decimal digits of a natural number (fuel-structured). -/
def natDigitsAux : Nat → Nat → List Char → List Char
  | 0, _, acc => acc
  | fuel + 1, n, acc =>
    if n = 0 then acc else natDigitsAux fuel (n / 10) (hexDigit (n % 10) :: acc)

/-- Zero-padded `w`-wide decimal rendering of a natural number. -/
def natPad (w n : Nat) : List Char :=
  let ds := if n = 0 then ['0'] else natDigitsAux 20 n []
  List.replicate (w - ds.length) '0' ++ ds

/-- Civil rendering `YYYY-MM-DD<sep>HH:MM:SS` of naive epoch-style seconds. -/
def formatNaive (secs : Int) (sep : Char) : String :=
  let days := secs.ediv 86400
  let sod := (secs.emod 86400).toNat
  let ymd := civilFromDays days
  String.mk (natPad 4 ymd.1.toNat ++ ['-'] ++ natPad 2 ymd.2.1.toNat ++ ['-'] ++
    natPad 2 ymd.2.2.toNat ++ [sep] ++ natPad 2 (sod / 3600) ++ [':'] ++
    natPad 2 (sod / 60 % 60) ++ [':'] ++ natPad 2 (sod % 60))

/-- Model of `chrono`'s `to_rfc3339` at whole-second precision: local civil
time followed by the numeric offset (`+00:00` for UTC). -/
def toRfc3339 (localSecs offsetSecs : Int) : String :=
  let a := offsetSecs.natAbs
  let sign := if offsetSecs < 0 then '-' else '+'
  formatNaive localSecs 'T' ++
    String.mk (sign :: (natPad 2 (a / 3600) ++ [':'] ++ natPad 2 (a / 60 % 60)))

/-! ## Normalization

`normalize_event` from `src-tauri/src/normalize.rs`.  The ambient clock
`Utc::now()` is passed explicitly as `nowSecs` (UTC epoch seconds). -/

/-- The composite identity key of a raw event, given its resolved UTC start
string: `venue_id | start_utc | lowercased main artist`. -/
def identityKey (venueId startUtcStr mainArtist : String) : String :=
  venueId ++ "|" ++ startUtcStr ++ "|" ++ lowerStr mainArtist


def normalize_event (raw : RawEvent) (nowSecs : Int) : Option Event :=
  match parse_local raw.start raw.timezone with
  | none => none
  | some dtLocal =>
    let utc := dtLocal.utcSecs
    let main_artist := (raw.artists.get? 0).getD "TBA"
    let startUtcStr := toRfc3339 utc 0
    let key := identityKey raw.venue_id startUtcStr main_artist
    let id := String.mk ((hexStr (sha256 (utf8 key))).toList.take 16)
    some
      { id := id
        source := raw.source
        venue_id := raw.venue_id
        venue_name := some raw.venue_name
        venue_url := none
        start_local := some (toRfc3339 dtLocal.localSecs dtLocal.offsetSecs)
        start_utc := startUtcStr
        doors_local := none
        artists := raw.artists
        is_all_ages := none
        ticket_url := raw.ticket_url
        event_url := raw.event_url
        price_min_cents := parse_price_min raw.price_text
        price_max_cents := parse_price_max raw.price_text
        currency := some "USD"
        tags := []
        scraped_at_utc := toRfc3339 nowSecs 0
        extra := raw.extra }

/-! ## Event store

`Store` from `src-tauri/src/db.rs`.  The `events` table row is
`StoredEventRecord`; the serialized payload column is modelled as the
structured `Event`.  The write-only `posts` table is carried along for
fidelity. -/

structure StoredEventRecord where
  id : String
  payload : Event
  first_seen_utc : String
  last_seen_utc : String
  posted_at_utc : Option String

structure PostRecord where
  post_id : String
  event_id : String
  fb_object_id : Option String
  created_at_utc : Option String
  status : Option String
  response_json : Option Json

structure Store where
  events : List StoredEventRecord
  posts : List PostRecord

/-- The events-table primary-key discipline: ids are pairwise distinct. -/
def Store.Wellformed (s : Store) : Prop := (s.events.map (·.id)).Nodup

/-- `upsert_event` from `db.rs`: `now` is the event's own `scraped_at_utc`;
an existing row keeps `first_seen_utc` and `posted_at_utc` and gets the new
payload and `last_seen_utc`; a fresh row has `first_seen = last_seen = now`
and a NULL `posted_at_utc`. -/
def upsert_event (s : Store) (ev : Event) : Store :=
  let now := ev.scraped_at_utc
  if s.events.any (fun r => r.id == ev.id) then
    { s with events := s.events.map (fun r =>
        if r.id == ev.id then { r with payload := ev, last_seen_utc := now } else r) }
  else
    { s with events := s.events ++
        [{ id := ev.id, payload := ev, first_seen_utc := now, last_seen_utc := now,
           posted_at_utc := none }] }

/-- `mark_posted` from `db.rs`: sets `posted_at_utc = datetime('now')` on the
matching row (no-op when the id is unknown) and upserts the posts row
(`INSERT OR REPLACE` keyed by `post_id = event_id`). -/
def mark_posted (s : Store) (eventId fbObjectId nowStr : String) : Store :=
  { events := s.events.map (fun r =>
      if r.id == eventId then { r with posted_at_utc := some nowStr } else r),
    posts := s.posts.filter (fun p => !(p.post_id == eventId)) ++
      [{ post_id := eventId, event_id := eventId, fb_object_id := some fbObjectId,
         created_at_utc := some nowStr, status := some "ok", response_json := none }] }

/-- `get_event` from `db.rs` (`query_row` failure on a missing id is `none`). -/
def get_event (s : Store) (eventId : String) : Option Event :=
  (s.events.find? (fun r => r.id == eventId)).map (·.payload)

/-- A store operation, for stating invariants over operation sequences. -/
inductive StoreOp where
  | upsert (ev : Event)
  | markPosted (eventId fbObjectId nowStr : String)

def applyOp (s : Store) : StoreOp → Store
  | .upsert ev => upsert_event s ev
  | .markPosted eventId fb now => mark_posted s eventId fb now

def applyOps (s : Store) (ops : List StoreOp) : Store := ops.foldl applyOp s

/-! ## Pending queries and bucketing -/

/-- SQLite's `datetime('now')` string: `YYYY-MM-DD HH:MM:SS` (UTC). -/
def sqliteNowStr (nowSecs : Int) : String := formatNaive nowSecs ' '

/-- The `WHERE` clause shared by `pending_posts` and `pending_with_days`:
`posted_at_utc IS NULL AND json_extract(payload,'$.start_utc') >=
datetime('now')`.  The comparison is a TEXT comparison under BINARY
collation between the stored RFC 3339 string and SQLite's
space-separated `datetime('now')` string. -/
def pendingFilter (nowSecs : Int) (r : StoredEventRecord) : Bool :=
  r.posted_at_utc == none && strGeB r.payload.start_utc (sqliteNowStr nowSecs)

/-- `pending_posts` from `db.rs` (no ORDER BY; table order). -/
def pending_posts (s : Store) (nowSecs : Int) : List Event :=
  (s.events.filter (pendingFilter nowSecs)).map (·.payload)

/-- Parsing of a time string by SQLite's `julianday`: `YYYY-MM-DD`,
optionally followed by a `T`- or space-separated `HH:MM[:SS]` and an
optional `Z` or numeric offset; unparsable strings give NULL (`none`).
Result in UTC epoch seconds (whole-second precision). -/
def sqliteTimeSecs (str : String) : Option Int :=
  match readDigits 4 str.toList with
  | none => none
  | some (y, l) =>
  match expectCh '-' l with
  | none => none
  | some l =>
  match readDigits 2 l with
  | none => none
  | some (m, l) =>
  match expectCh '-' l with
  | none => none
  | some l =>
  match readDigits 2 l with
  | none => none
  | some (d, l) =>
  match l with
  | [] => if validCivil y m d 0 0 0 then some (civilSecs y m d 0 0 0) else none
  | sep :: l =>
    if sep = ' ' ∨ sep = 'T' then
      match readDigits 2 l with
      | none => none
      | some (h, l) =>
      match expectCh ':' l with
      | none => none
      | some l =>
      match readDigits 2 l with
      | none => none
      | some (mi, l) =>
      let cont := fun (sec : Nat) (rest : List Char) =>
        if validCivil y m d h mi sec then
          match rest with
          | [] => some (civilSecs y m d h mi sec)
          | ['Z'] => some (civilSecs y m d h mi sec)
          | '+' :: r => (readOffsetHM r).map (fun off => civilSecs y m d h mi sec - off)
          | '-' :: r => (readOffsetHM r).map (fun off => civilSecs y m d h mi sec + off)
          | _ => none
        else none
      match l with
      | ':' :: l2 =>
        match readDigits 2 l2 with
        | some (sec, rest) => cont sec rest
        | none => none
      | _ => cont 0 l
    else none

/-- `CAST(ROUND(julianday(start) - julianday('now')) AS INTEGER)`: the
seconds difference divided by 86400 and rounded half away from zero. -/
def roundDays (x : Int) : Int :=
  if 0 ≤ x then (x + 43200).ediv 86400 else -((-x + 43200).ediv 86400)

/-- The `days_until` column of `pending_with_days` (NULL when the stored
start string does not parse). -/
def days_until_of (startStr : String) (nowSecs : Int) : Option Int :=
  (sqliteTimeSecs startStr).map (fun t => roundDays (t - nowSecs))

/-- The `PendingRow` helper type from `db.rs`. -/
structure PendingRow where
  event : Event
  days_until : Int

/-- Ordered insertion for the model of `ORDER BY ... ASC`. -/
def ordInsert {α : Type} (le : α → α → Bool) (a : α) : List α → List α
  | [] => [a]
  | b :: l => if le a b then a :: b :: l else b :: ordInsert le a l

/-- Insertion sort (stable) modelling SQLite's `ORDER BY`. -/
def insSort {α : Type} (le : α → α → Bool) : List α → List α
  | [] => []
  | a :: l => ordInsert le a (insSort le l)

/-- Row comparison for `ORDER BY json_extract(payload,'$.start_utc') ASC`. -/
def recLe (a b : StoredEventRecord) : Bool :=
  strLeB a.payload.start_utc b.payload.start_utc

/-- `pending_with_days` from `db.rs`: select unposted rows whose start
string compares `>=` the `datetime('now')` string, order them by the start
string, compute `days_until`, and drop rows whose `days_until` is NULL
(`query_map` row error filtered out by `filter_map(Result::ok)`). -/
def pending_with_days (s : Store) (nowSecs : Int) : List PendingRow :=
  (insSort recLe (s.events.filter (pendingFilter nowSecs))).filterMap
    (fun r => (days_until_of r.payload.start_utc nowSecs).map
      (fun d => PendingRow.mk r.payload d))

/-- The bucket assignment from `list_pending_buckets` in `main.rs`. -/
def bucketOf (d : Int) : String :=
  if d ≤ 0 then "DAY_OF"
  else if d < 7 then "LT_1W"
  else if d < 14 then "LT_2W"
  else if d < 30 then "LT_1M"
  else if d < 60 then "LT_2M"
  else "GTE_2M"

/-- Association-list insertion: the model of
`map.entry(bucket).or_default().push(row)` on the `BTreeMap`.  (The
`BTreeMap` iterates keys in sorted order; that iteration order is not
modelled, since nothing downstream depends on it — the frontend re-keys the
received object through `normalizeBuckets` into a fixed key order.) -/
def btInsert (k : String) (r : PendingRow) :
    List (String × List PendingRow) → List (String × List PendingRow)
  | [] => [(k, [r])]
  | (k', l) :: rest =>
    if k = k' then (k', l ++ [r]) :: rest
    else (k', l) :: btInsert k r rest

/-- `list_pending_buckets` from `main.rs`: group the pending rows by bucket
key.  Keys with no rows are never inserted into the map. -/
def list_pending_buckets (s : Store) (nowSecs : Int) :
    List (String × List PendingRow) :=
  (pending_with_days s nowSecs).foldl (fun m r => btInsert (bucketOf r.days_until) r m) []

/-- Association-list lookup (map access on the serialized object). -/
def lookupAssoc {α : Type} (m : List (String × α)) (k : String) : Option α :=
  (m.find? (fun p => p.1 == k)).map (·.2)

/-! ## Draft composer

`compose` and `fallback` from `src-tauri/src/llm.rs`.  The external
chat-completion call is modelled by its outcome: `failure` covers a network
error and a non-success HTTP status (`send()`/`error_for_status()` erring),
`response body` a successful JSON response. -/

inductive LlmOutcome where
  | failure : LlmOutcome
  | response (body : Json) : LlmOutcome

/-- The `text[..max_chars]` truncation (Rust slices bytes and would panic on
a non-boundary; modelled on characters, which agrees on ASCII output). -/
def truncatePost (maxChars : Nat) (text : String) : String :=
  if text.length > maxChars then String.mk (text.toList.take maxChars) else text

/-- `compose`: on a successful response the text is
`v["choices"][0]["message"]["content"].as_str().unwrap_or("")`, truncated;
any call failure is an `Err` (`none`).  The event is used only to build the
prompt, which does not influence the modelled outcome. -/
def compose (outcome : LlmOutcome) (maxChars : Nat) (_ev : Event) : Option String :=
  match outcome with
  | .failure => none
  | .response v =>
    some (truncatePost maxChars
      ((jAsStr (jGet (jGet (jIdx (jGet v "choices") 0) "message") "content")).getD ""))

/-- `fallback` from `llm.rs`: headliner, then optional venue, local time,
ticket and detail links. -/
def fallback (ev : Event) : String :=
  let main := (ev.artists.get? 0).getD "TBA"
  main ++
    (match ev.venue_name with | some v => " — " ++ v | none => "") ++
    (match ev.start_local with | some dt => "\n" ++ dt | none => "") ++
    (match ev.ticket_url with | some t => "\n🎟 Tickets: " ++ t | none => "") ++
    (match ev.event_url with | some u => "\nℹ️ Details: " ++ u | none => "")

/-- The composing part of the `preview_post` command in `main.rs`:
`match comp.compose_preview(&ev).await { Ok(s) => Ok(s), Err(_) =>
Ok(llm::fallback(&ev)) }` (`compose_preview` simply calls `compose`). -/
def previewText (outcome : LlmOutcome) (maxChars : Nat) (ev : Event) : String :=
  match compose outcome maxChars ev with
  | some s => s
  | none => fallback ev

/-- The full `preview_post` command: load the event by id, then compose with
fallback; a missing id is a command error (`none`). -/
def preview_post (s : Store) (eventId : String) (outcome : LlmOutcome)
    (maxChars : Nat) : Option String :=
  (get_event s eventId).map (previewText outcome maxChars)

/-! ## Frontend bucket normalization

`bucketKeys`, `createEmptyBuckets` and `normalizeBuckets` from
`src/src/lib/types.ts`.  The zod-parsed record is modelled as an
association list of already-typed entries. -/

def bucketKeysTS : List String :=
  ["DAY_OF", "LT_1W", "LT_2W", "LT_1M", "LT_2M", "GTE_2M"]

def createEmptyBuckets : List (String × List PendingRow) :=
  bucketKeysTS.map (fun k => (k, ([] : List PendingRow)))

/-- Record update `result[key] = value` for a key known to be present. -/
def setAssoc (m : List (String × List PendingRow)) (k : String)
    (v : List PendingRow) : List (String × List PendingRow) :=
  m.map (fun p => if p.1 == k then (p.1, v) else p)

/-- `normalizeBuckets` from `types.ts`: start from all six empty buckets and
copy over the input's known bucket keys; unknown keys are dropped. -/
def normalizeBuckets (input : List (String × List PendingRow)) :
    List (String × List PendingRow) :=
  input.foldl
    (fun res p => if bucketKeysTS.contains p.1 then setAssoc res p.1 p.2 else res)
    createEmptyBuckets

/-! ## Concrete fixtures

Test data used by the concrete instances below (counterexamples and
witnesses). -/

/-- A stored canonical event at the given UTC start. -/
def evAt (id startUtc : String) : Event :=
  { id := id, source := "s", venue_id := "v", venue_name := some "Venue",
    venue_url := none, start_local := none, start_utc := startUtc,
    doors_local := none, artists := ["Band"], is_all_ages := none,
    ticket_url := none, event_url := none, price_min_cents := none,
    price_max_cents := none, currency := none, tags := [],
    scraped_at_utc := "2024-12-01T00:00:00+00:00", extra := Json.null }

/-- An unposted stored row for `evAt`. -/
def recAt (id startUtc : String) : StoredEventRecord :=
  { id := id, payload := evAt id startUtc, first_seen_utc := "2024-12-01 00:00:00",
    last_seen_utc := "2024-12-01 00:00:00", posted_at_utc := none }

/-- The six example events of the bucketing test, in scrambled table order. -/
def storeSix : Store :=
  { events :=
      [ recAt "e3" "2025-01-08T00:00:00+00:00",
        recAt "e1" "2025-01-01T00:00:00+00:00",
        recAt "e5" "2025-02-10T00:00:00+00:00",
        recAt "e2" "2025-01-04T00:00:00+00:00",
        recAt "e6" "2025-06-01T00:00:00+00:00",
        recAt "e4" "2025-01-20T00:00:00+00:00" ],
    posts := [] }

/-- `2025-01-01T00:00:00Z` as UTC epoch seconds. -/
def nowJan1 : Int := civilSecs 2025 1 1 0 0 0

/-- A store holding one unposted event earlier on the same UTC day as the
query time below. -/
def storeLate : Store :=
  { events := [recAt "p1" "2025-01-01T00:00:00+00:00"], posts := [] }

/-- `2025-01-01T23:00:00Z`: twenty-three hours after `storeLate`'s event. -/
def nowLate : Int := civilSecs 2025 1 1 23 0 0

/-- A store holding one unposted event dated before the query date. -/
def storeStale : Store :=
  { events := [recAt "p2" "2024-12-31T23:00:00+00:00"], posts := [] }

def storeEmpty : Store := { events := [], posts := [] }

/-- A raw event with headliner `"Band"`. -/
def rawBand : RawEvent :=
  { source := "pine_box", venue_id := "pine_box", venue_name := "Pine Box",
    event_url := none, ticket_url := none, start := "2025-01-01T00:00:00+00:00",
    timezone := "America/Los_Angeles", artists := ["Band"], price_text := none,
    extra := Json.null }

/-- Identical to `rawBand` except for a trailing space on the artist name. -/
def rawBandSpace : RawEvent := { rawBand with artists := ["Band "] }

/-- Same event as `rawBand` scraped with price text present and different
source metadata (the identity-stability scenario). -/
def rawBandPriced : RawEvent :=
  { rawBand with price_text := some "$15-$20",
                 extra := Json.obj [("doors", Json.str "7pm")] }

/-- The canonical event `normalize_event` produces from `rawBand` at
`nowSecs = 0`. -/
def evBandNorm : Event :=
  { id := "fb501d6632abd0f4", source := "pine_box", venue_id := "pine_box",
    venue_name := some "Pine Box", venue_url := none,
    start_local := some "2025-01-01T00:00:00+00:00",
    start_utc := "2025-01-01T00:00:00+00:00", doors_local := none,
    artists := ["Band"], is_all_ages := none, ticket_url := none,
    event_url := none, price_min_cents := none, price_max_cents := none,
    currency := some "USD", tags := [], scraped_at_utc := "1970-01-01T00:00:00+00:00",
    extra := Json.null }

/-- The canonical event `normalize_event` produces from `rawBandPriced` at
`nowSecs = 86400`: same id, different price, metadata and scrape time. -/
def evBandPricedNorm : Event :=
  { evBandNorm with price_min_cents := some 1500, price_max_cents := some 2000,
                    scraped_at_utc := "1970-01-02T00:00:00+00:00",
                    extra := Json.obj [("doors", Json.str "7pm")] }

/-- A successful chat-completion response whose content extraction yields
the empty string (no choices). -/
def jNoChoices : Json := Json.obj [("choices", Json.arr [])]

/-- A fresh event for the upsert witness. -/
def evW1 : Event := evAt "w1" "2025-03-01T00:00:00+00:00"

/-- The same event re-scraped later with a ticket URL now present. -/
def evW1b : Event :=
  { evW1 with ticket_url := some "https://tix.example/w1",
              scraped_at_utc := "2024-12-02T00:00:00+00:00" }

/-- An already-posted stored row. -/
def recPosted : StoredEventRecord :=
  { recAt "p3" "2025-03-01T00:00:00+00:00" with posted_at_utc := some "2025-01-01 00:00:00" }

def storePosted : Store := { events := [recPosted], posts := [] }

/-! # Theorems -/

/-! ## Price-parsing lemmas (towards C5 and C10) -/

theorem digitVal_le_nine (c : Char) (h : isDigitCh c = true) : digitVal c ≤ 9 := by
  simp only [isDigitCh, decide_eq_true_eq] at h
  simp only [digitVal]
  omega

theorem foldl_digits_lt (ds : List Char) (hds : ∀ c ∈ ds, isDigitCh c = true) :
    ∀ a : Nat, ds.foldl (fun a c => a * 10 + digitVal c) a < (a + 1) * 10 ^ ds.length := by
  induction ds with
  | nil => intro a; simp
  | cons c ds ih =>
    intro a
    have hc : digitVal c ≤ 9 := digitVal_le_nine c (hds c (by simp))
    have ih' := ih (fun c' hm => hds c' (by simp [hm])) (a * 10 + digitVal c)
    have hstep : (a * 10 + digitVal c + 1) * 10 ^ ds.length ≤ (a + 1) * 10 ^ (ds.length + 1) := by
      have h1 : a * 10 + digitVal c + 1 ≤ (a + 1) * 10 := by omega
      calc (a * 10 + digitVal c + 1) * 10 ^ ds.length
          ≤ (a + 1) * 10 * 10 ^ ds.length := Nat.mul_le_mul_right _ h1
        _ = (a + 1) * 10 ^ (ds.length + 1) := by ring
    simp only [List.foldl_cons, List.length_cons]
    omega

theorem digitsVal_le (ds : List Char) (hds : ∀ c ∈ ds, isDigitCh c = true)
    (hlen : ds.length ≤ 3) : digitsVal ds ≤ 999 := by
  have h := foldl_digits_lt ds hds 0
  have hp : (10 : Nat) ^ ds.length ≤ 10 ^ 3 := Nat.pow_le_pow_right (by norm_num) hlen
  simp only [digitsVal]
  omega

theorem take3Digits_le (l : List Char) (v : Nat) (rest : List Char)
    (h : take3Digits l = some (v, rest)) : v ≤ 999 := by
  simp only [take3Digits] at h
  split at h
  · exact absurd h (by simp)
  · injection h with h'
    have hv : digitsVal ((l.takeWhile isDigitCh).take 3) = v := congrArg Prod.fst h'
    rw [← hv]
    refine digitsVal_le _ (fun c hm => ?_) ?_
    · exact List.mem_takeWhile_imp (List.mem_of_mem_take hm)
    · exact List.length_take_le 3 _

theorem dollarDigits_le (l : List Char) (v : Nat) (rest : List Char)
    (h : dollarDigits l = some (v, rest)) : v ≤ 999 := by
  unfold dollarDigits at h
  split at h
  · exact take3Digits_le _ _ _ h
  · exact take3Digits_le _ _ _ h

theorem matchSecond_le (l : List Char) (b : Nat) (h : matchSecond l = some b) : b ≤ 999 := by
  simp only [matchSecond] at h
  split at h
  · split at h
    · rw [Option.map_eq_some'] at h
      obtain ⟨⟨v, rest⟩, hdd, hv⟩ := h
      exact hv ▸ dollarDigits_le _ _ _ hdd
    · exact absurd h (by simp)
  · exact absurd h (by simp)

theorem matchAt_le (l : List Char) (a : Nat) (b : Option Nat)
    (h : matchAt l = some (a, b)) :
    a ≤ 999 ∧ ∀ b', b = some b' → b' ≤ 999 := by
  unfold matchAt at h
  rw [Option.map_eq_some'] at h
  obtain ⟨⟨v, rest⟩, hdd, hab⟩ := h
  have h1 : v = a := congrArg Prod.fst hab
  have h2 : matchSecond rest = b := congrArg Prod.snd hab
  subst h1; subst h2
  exact ⟨dollarDigits_le _ _ _ hdd, fun b' hb' => matchSecond_le _ _ hb'⟩

theorem findMatch_le (l : List Char) (a : Nat) (b : Option Nat)
    (h : findMatch l = some (a, b)) :
    a ≤ 999 ∧ ∀ b', b = some b' → b' ≤ 999 := by
  induction l with
  | nil => exact absurd h (by simp [findMatch])
  | cons c rest ih =>
    unfold findMatch at h
    split at h
    · next r hr =>
      injection h with h'
      subst h'
      exact matchAt_le _ _ _ hr
    · exact ih h

theorem take3Digits_eq_none (l : List Char) (hl : ∀ c ∈ l, isDigitCh c = false) :
    take3Digits l = none := by
  have : l.takeWhile isDigitCh = [] := by
    cases l with
    | nil => rfl
    | cons c rest => simp [List.takeWhile_cons, hl c (by simp)]
  simp [take3Digits, this]

theorem dollarDigits_eq_none (l : List Char) (hl : ∀ c ∈ l, isDigitCh c = false) :
    dollarDigits l = none := by
  unfold dollarDigits
  split
  · next rest => exact take3Digits_eq_none rest (fun c hm => hl c (by simp [hm]))
  · exact take3Digits_eq_none l hl

theorem matchAt_eq_none (l : List Char) (hl : ∀ c ∈ l, isDigitCh c = false) :
    matchAt l = none := by
  simp [matchAt, dollarDigits_eq_none l hl]

theorem findMatch_eq_none (l : List Char) (hl : ∀ c ∈ l, isDigitCh c = false) :
    findMatch l = none := by
  induction l with
  | nil => rfl
  | cons c rest ih =>
    unfold findMatch
    rw [matchAt_eq_none _ hl]
    exact ih (fun c' hm => hl c' (by simp [hm]))

/-- C5: price parsing maps free text to integer cents.  As amended: the
range text gives both bounds, a single-value match gives only the minimum
(the maximum stays absent — the source never copies the first capture into
the second), and digit-free text gives both bounds absent. -/
theorem c5_price_parsing :
    parse_price (some "$15-$20") = (some 1500, some 2000) ∧
    parse_price (some "$10") = (some 1000, none) ∧
    parse_price none = (none, none) ∧
    ∀ s : String, (∀ c ∈ s.toList, isDigitCh c = false) →
      parse_price (some s) = (none, none) := by
  refine ⟨by decide, by decide, rfl, fun s hs => ?_⟩
  have h := findMatch_eq_none s.toList hs
  simp only [String.toList] at h
  simp [parse_price, String.toList, h]

/-- C5 counterexample: contrary to the claim, a single-value match does not
yield `min == max`: `"$10"` parses to `(1000, absent)`, not `(1000, 1000)`. -/
theorem c5_claim_false : parse_price (some "$10") ≠ (some 1000, some 1000) := by decide

/-- C5 witness: the digit-free branch of `c5_price_parsing` at `"free!"`. -/
theorem c5_witness :
    (∀ c ∈ ("free!").toList, isDigitCh c = false) ∧
    parse_price (some "free!") = (none, none) :=
  ⟨by decide, (c5_price_parsing.2.2.2) "free!" (by decide)⟩

theorem parse_price_some (txt : String) :
    parse_price (some txt) =
      match findMatch txt.data with
      | some (a, b) => (some ((a : Int) * 100), b.map (fun (v : Nat) => (v : Int) * 100))
      | none => (none, none) := rfl

/-- C10: every present parsed price bound is an exact multiple of 100 cents
in `[0, 99900]` (the capture is at most three digits, scaled by 100), and a
four-digit amount is parsed from its first three digits only:
`"$1500"` gives `15000` cents. -/
theorem c10_price_cents_range (s : Option String) :
    (∀ v, (parse_price s).1 = some v → v % 100 = 0 ∧ 0 ≤ v ∧ v ≤ 99900) ∧
    (∀ v, (parse_price s).2 = some v → v % 100 = 0 ∧ 0 ≤ v ∧ v ≤ 99900) ∧
    parse_price (some "$1500") = (some 15000, none) := by
  refine ⟨?_, ?_, by decide⟩
  · intro v hv
    cases s with
    | none => exact absurd hv (by simp [parse_price])
    | some txt =>
      cases hfm : findMatch txt.data with
      | none =>
        rw [parse_price_some, hfm] at hv
        exact absurd hv (by simp)
      | some ab =>
        obtain ⟨a, b⟩ := ab
        have hb := (findMatch_le _ _ _ hfm).1
        rw [parse_price_some, hfm] at hv
        dsimp only at hv
        rw [Option.some.injEq] at hv
        subst hv
        have hc : (a : Int) ≤ 999 := by exact_mod_cast hb
        have hnn : (0 : Int) ≤ (a : Int) := Int.natCast_nonneg a
        exact ⟨Int.mul_emod_left _ _, by omega, by omega⟩
  · intro v hv
    cases s with
    | none => exact absurd hv (by simp [parse_price])
    | some txt =>
      cases hfm : findMatch txt.data with
      | none =>
        rw [parse_price_some, hfm] at hv
        exact absurd hv (by simp)
      | some ab =>
        obtain ⟨a, b⟩ := ab
        have hb := (findMatch_le _ _ _ hfm).2
        rw [parse_price_some, hfm] at hv
        dsimp only at hv
        cases b with
        | none => exact absurd hv (by simp)
        | some b' =>
          simp only [Option.map_some', Option.some.injEq] at hv
          subst hv
          have hc : (b' : Int) ≤ 999 := by exact_mod_cast hb b' rfl
          have hnn : (0 : Int) ≤ (b' : Int) := Int.natCast_nonneg b'
          exact ⟨Int.mul_emod_left _ _, by omega, by omega⟩

/-- C10 witness: the bound theorem applied at `"$15-$20"`. -/
theorem c10_witness :
    (parse_price (some "$15-$20")).1 = some 1500 ∧
    (1500 : Int) % 100 = 0 ∧ (0 : Int) ≤ 1500 ∧ (1500 : Int) ≤ 99900 :=
  ⟨by decide, (c10_price_cents_range (some "$15-$20")).1 1500 (by decide)⟩

/-! ## Composer lemmas (towards C9) -/

theorem string_length_zero (s : String) (h : s.length = 0) : s = "" := by
  cases s with
  | mk data =>
    cases data with
    | nil => rfl
    | cons c cs => simp [String.length] at h

theorem append_ne_empty_left (s t : String) (h : s ≠ "") : s ++ t ≠ "" := by
  intro he
  apply h
  have hlen : (s ++ t).length = 0 := by rw [he]; rfl
  rw [String.length_append] at hlen
  exact string_length_zero s (by omega)

theorem fallback_head (ev : Event) :
    ∃ rest, fallback ev = ((ev.artists.get? 0).getD "TBA") ++ rest := by
  refine ⟨(match ev.venue_name with | some v => " — " ++ v | none => "") ++
      ((match ev.start_local with | some dt => "\n" ++ dt | none => "") ++
       ((match ev.ticket_url with | some t => "\n🎟 Tickets: " ++ t | none => "") ++
        (match ev.event_url with | some u => "\nℹ️ Details: " ++ u | none => ""))), ?_⟩
  simp only [fallback, String.append_assoc]

/-- C9 (amended): a network error or non-success response makes `compose`
fail, and the preview path then returns the deterministic `fallback`; the
fallback starts with the headliner (first artist, `"TBA"` when absent), is
non-empty whenever that headliner string is non-empty, and depends only on
the event's own fields.  (A successful call with empty output is returned
as empty text, not replaced by the fallback — see `c9_claim_false`.) -/
theorem c9_compose_fallback (ev : Event) (maxChars : Nat) :
    compose .failure maxChars ev = none ∧
    previewText .failure maxChars ev = fallback ev ∧
    (∃ rest, fallback ev = ((ev.artists.get? 0).getD "TBA") ++ rest) ∧
    (((ev.artists.get? 0).getD "TBA") ≠ "" → fallback ev ≠ "") ∧
    (∀ ev₂, ev.artists = ev₂.artists → ev.venue_name = ev₂.venue_name →
      ev.start_local = ev₂.start_local → ev.ticket_url = ev₂.ticket_url →
      ev.event_url = ev₂.event_url → fallback ev = fallback ev₂) := by
  refine ⟨rfl, rfl, fallback_head ev, ?_, ?_⟩
  · intro hne
    obtain ⟨rest, hr⟩ := fallback_head ev
    rw [hr]
    exact append_ne_empty_left _ _ hne
  · intro ev₂ h1 h2 h3 h4 h5
    simp only [fallback, h1, h2, h3, h4, h5]

/-- C9 counterexample: with a successful external call whose output is
empty, `preview_post`'s text is the empty string, not the fallback — so
"empty output" does not trigger the fallback, and the returned text is
empty and does not contain the headliner. -/
theorem c9_claim_false :
    previewText (.response jNoChoices) 900 (evAt "x" "2025-01-01T00:00:00+00:00") = "" ∧
    fallback (evAt "x" "2025-01-01T00:00:00+00:00") = "Band — Venue" := by
  exact ⟨by decide, by decide⟩

/-- C9 witness: the fallback for a concrete event with headliner `"Band"`
is non-empty. -/
theorem c9_witness :
    ((((evAt "x" "2025-01-01T00:00:00+00:00").artists.get? 0).getD "TBA") ≠ "") ∧
    fallback (evAt "x" "2025-01-01T00:00:00+00:00") ≠ "" :=
  ⟨by decide, (c9_compose_fallback (evAt "x" "2025-01-01T00:00:00+00:00") 900).2.2.2.1 (by decide)⟩

/-! ## Store lemmas (towards C1 and C4) -/

theorem find?_map_pres {α : Type} (l : List α) (f : α → α) (p : α → Bool)
    (hf : ∀ x, p (f x) = p x) : (l.map f).find? p = (l.find? p).map f := by
  induction l with
  | nil => rfl
  | cons a l ih =>
    by_cases hpa : p a
    · rw [List.map_cons, List.find?_cons_of_pos _ (by rw [hf]; exact hpa),
        List.find?_cons_of_pos _ hpa, Option.map_some']
    · rw [List.map_cons, List.find?_cons_of_neg _ (by rw [hf]; simpa using hpa),
        List.find?_cons_of_neg _ (by simpa using hpa), ih]

theorem filter_map_pres {α : Type} (l : List α) (f : α → α) (p : α → Bool)
    (hf : ∀ x, p (f x) = p x) : (l.map f).filter p = (l.filter p).map f := by
  induction l with
  | nil => rfl
  | cons a l ih =>
    by_cases hpa : p a
    · rw [List.map_cons, List.filter_cons_of_pos (by rw [hf]; exact hpa),
        List.filter_cons_of_pos hpa, List.map_cons, ih]
    · rw [List.map_cons, List.filter_cons_of_neg (by rw [hf]; simpa using hpa),
        List.filter_cons_of_neg (by simpa using hpa), ih]

theorem find?_append_left {α : Type} (l₁ l₂ : List α) (p : α → Bool) (r : α)
    (h : l₁.find? p = some r) : (l₁ ++ l₂).find? p = some r := by
  induction l₁ with
  | nil => exact absurd h (by simp)
  | cons a l ih =>
    by_cases hpa : p a
    · rw [List.find?_cons_of_pos _ hpa] at h
      rw [List.cons_append, List.find?_cons_of_pos _ hpa]
      exact h
    · rw [List.find?_cons_of_neg _ (by simpa using hpa)] at h
      rw [List.cons_append, List.find?_cons_of_neg _ (by simpa using hpa)]
      exact ih h

theorem find?_append_none {α : Type} (l₁ l₂ : List α) (p : α → Bool)
    (h : l₁.find? p = none) : (l₁ ++ l₂).find? p = l₂.find? p := by
  induction l₁ with
  | nil => rfl
  | cons a l ih =>
    by_cases hpa : p a
    · rw [List.find?_cons_of_pos _ hpa] at h
      exact absurd h (by simp)
    · rw [List.find?_cons_of_neg _ (by simpa using hpa)] at h
      rw [List.cons_append, List.find?_cons_of_neg _ (by simpa using hpa)]
      exact ih h

theorem filter_id_singleton (l : List StoredEventRecord) (x : String)
    (r : StoredEventRecord) (hnd : (l.map (·.id)).Nodup)
    (hfind : l.find? (fun t => t.id == x) = some r) :
    l.filter (fun t => t.id == x) = [r] := by
  induction l with
  | nil => exact absurd hfind (by simp)
  | cons a l ih =>
    rw [List.map_cons, List.nodup_cons] at hnd
    by_cases hpa : (a.id == x) = true
    · rw [@List.find?_cons_of_pos _ (fun t => t.id == x) a l hpa] at hfind
      injection hfind with hra
      subst hra
      rw [@List.filter_cons_of_pos _ (fun t => t.id == x) a l hpa]
      have : l.filter (fun t => t.id == x) = [] := by
        rw [List.filter_eq_nil_iff]
        intro t ht hc
        apply hnd.1
        have : t.id = x := by simpa using hc
        have hax : a.id = x := by simpa using hpa
        exact hax ▸ this ▸ List.mem_map_of_mem (·.id) ht
      rw [this]
    · rw [@List.find?_cons_of_neg _ (fun t => t.id == x) a l (by simpa using hpa)] at hfind
      rw [@List.filter_cons_of_neg _ (fun t => t.id == x) a l (by simpa using hpa)]
      exact ih hnd.2 hfind

theorem upsert_insert_spec (s : Store) (e : Event)
    (hnone : s.events.find? (fun t => t.id == e.id) = none) :
    (upsert_event s e).events = s.events ++
      [{ id := e.id, payload := e, first_seen_utc := e.scraped_at_utc,
         last_seen_utc := e.scraped_at_utc, posted_at_utc := none }] := by
  have hany : s.events.any (fun t => t.id == e.id) = false := by
    rw [List.any_eq_false]
    intro t ht
    have := List.find?_eq_none.mp hnone t ht
    simpa using this
  unfold upsert_event
  rw [hany]
  simp

theorem upsert_f_id (e : Event) (t : StoredEventRecord) :
    (if t.id == e.id then { t with payload := e, last_seen_utc := e.scraped_at_utc }
     else t).id = t.id := by
  by_cases h : (t.id == e.id) = true
  · rw [if_pos h]
  · rw [if_neg h]

theorem mark_f_id (pid now : String) (t : StoredEventRecord) :
    (if t.id == pid then { t with posted_at_utc := some now } else t).id = t.id := by
  by_cases h : (t.id == pid) = true
  · rw [if_pos h]
  · rw [if_neg h]

theorem upsert_update_spec (s : Store) (e : Event) (r : StoredEventRecord)
    (hw : s.Wellformed)
    (hfind : s.events.find? (fun t => t.id == e.id) = some r) :
    (upsert_event s e).events.find? (fun t => t.id == e.id) =
      some { r with payload := e, last_seen_utc := e.scraped_at_utc } ∧
    ((upsert_event s e).events.filter (fun t => t.id == e.id)).length = 1 := by
  have hpr : (r.id == e.id) = true := by simpa using List.find?_some hfind
  have hany : s.events.any (fun t => t.id == e.id) = true := by
    rw [List.any_eq_true]
    exact ⟨r, List.mem_of_find?_eq_some hfind, hpr⟩
  have hpres : ∀ t : StoredEventRecord,
      ((if t.id == e.id then { t with payload := e, last_seen_utc := e.scraped_at_utc }
        else t).id == e.id) = (t.id == e.id) := fun t => by rw [upsert_f_id]
  unfold upsert_event
  rw [if_pos hany]
  constructor
  · rw [find?_map_pres _ _ _ hpres, hfind, Option.map_some', if_pos hpr]
  · rw [filter_map_pres _ _ _ hpres, filter_id_singleton s.events e.id r hw hfind]
    rfl

theorem upsert_preserves_wellformed (s : Store) (e : Event) (hw : s.Wellformed) :
    (upsert_event s e).Wellformed := by
  unfold upsert_event
  by_cases hany : s.events.any (fun t => t.id == e.id) = true
  · rw [if_pos hany]
    unfold Store.Wellformed
    have heq : (s.events.map (fun t =>
        if t.id == e.id then { t with payload := e, last_seen_utc := e.scraped_at_utc }
        else t)).map (·.id) = s.events.map (·.id) := by
      rw [List.map_map]
      exact List.map_congr_left (fun t _ => upsert_f_id e t)
    rw [heq]
    exact hw
  · rw [if_neg hany]
    unfold Store.Wellformed
    rw [List.map_append, List.nodup_append]
    refine ⟨hw, by simp, ?_⟩
    intro x hx hx'
    simp only [List.map_cons, List.map_nil, List.mem_cons, List.not_mem_nil, or_false] at hx'
    subst hx'
    rw [Bool.not_eq_true, List.any_eq_false] at hany
    obtain ⟨t, ht, hteq⟩ := List.mem_map.mp hx
    exact absurd (by simpa using hteq) (by simpa using hany t ht)

/-- C1: upserting a fresh event inserts one row with
`first_seen_utc = last_seen_utc = now` (the event's scrape time) and no
`posted_at_utc`; a second upsert of an event with the same id (any payload
field changed, scraped later) leaves exactly one stored row for that id,
with the id and `first_seen_utc` unchanged, `last_seen_utc` equal to the
second call's time, and the payload of the second call; ids stay unique.
The general update case (an already-stored id, any wellformed store) is the
final conjunct. -/
theorem c1_upsert_idempotent (s : Store) (e₁ e₂ : Event)
    (hw : s.Wellformed)
    (hnone : s.events.find? (fun t => t.id == e₁.id) = none)
    (hid : e₂.id = e₁.id) :
    (upsert_event s e₁).events = s.events ++
      [{ id := e₁.id, payload := e₁, first_seen_utc := e₁.scraped_at_utc,
         last_seen_utc := e₁.scraped_at_utc, posted_at_utc := none }] ∧
    (upsert_event (upsert_event s e₁) e₂).events.find? (fun t => t.id == e₁.id) =
      some { id := e₁.id, payload := e₂, first_seen_utc := e₁.scraped_at_utc,
             last_seen_utc := e₂.scraped_at_utc, posted_at_utc := none } ∧
    ((upsert_event (upsert_event s e₁) e₂).events.filter
        (fun t => t.id == e₁.id)).length = 1 ∧
    (upsert_event (upsert_event s e₁) e₂).Wellformed ∧
    (∀ (e : Event) (r : StoredEventRecord),
      s.events.find? (fun t => t.id == e.id) = some r →
        (upsert_event s e).events.find? (fun t => t.id == e.id) =
          some { r with payload := e, last_seen_utc := e.scraped_at_utc } ∧
        ((upsert_event s e).events.filter (fun t => t.id == e.id)).length = 1) := by
  have h₁ := upsert_insert_spec s e₁ hnone
  have hw₁ : (upsert_event s e₁).Wellformed := upsert_preserves_wellformed s e₁ hw
  have hfind₁ : (upsert_event s e₁).events.find? (fun t => t.id == e₂.id) =
      some { id := e₁.id, payload := e₁, first_seen_utc := e₁.scraped_at_utc,
             last_seen_utc := e₁.scraped_at_utc, posted_at_utc := none } := by
    rw [h₁, hid, find?_append_none _ _ _ hnone]
    simp
  have h₂ := upsert_update_spec (upsert_event s e₁) e₂ _ hw₁ hfind₁
  refine ⟨h₁, ?_, ?_, upsert_preserves_wellformed _ e₂ hw₁,
    fun e r hf => upsert_update_spec s e r hw hf⟩
  · have := h₂.1
    rw [hid] at this
    exact this
  · have := h₂.2
    rw [hid] at this
    exact this

/-- C1 witness: a fresh insert followed by an update with the ticket URL
changed and a later scrape time, on the empty store. -/
theorem c1_witness :
    (upsert_event storeEmpty evW1).events = storeEmpty.events ++
      [{ id := evW1.id, payload := evW1, first_seen_utc := evW1.scraped_at_utc,
         last_seen_utc := evW1.scraped_at_utc, posted_at_utc := none }] ∧
    (upsert_event (upsert_event storeEmpty evW1) evW1b).events.find?
        (fun t => t.id == evW1.id) =
      some { id := evW1.id, payload := evW1b, first_seen_utc := evW1.scraped_at_utc,
             last_seen_utc := evW1b.scraped_at_utc, posted_at_utc := none } ∧
    ((upsert_event (upsert_event storeEmpty evW1) evW1b).events.filter
        (fun t => t.id == evW1.id)).length = 1 := by
  have h := c1_upsert_idempotent storeEmpty evW1 evW1b (by constructor) rfl rfl
  exact ⟨h.1, h.2.1, h.2.2.1⟩

/-! ## Posted-flag invariant (C4) -/

/-- C4: over any sequence of `upsert_event` and `mark_posted` operations, a
record whose `posted_at_utc` is set keeps a set `posted_at_utc`: no
operation clears it back to NULL, and no operation removes the row. -/
theorem c4_posted_never_cleared (ops : List StoreOp) (s : Store) (eventId : String)
    (r : StoredEventRecord)
    (hfind : s.events.find? (fun t => t.id == eventId) = some r)
    (hposted : r.posted_at_utc.isSome = true) :
    ∃ r', (applyOps s ops).events.find? (fun t => t.id == eventId) = some r' ∧
      r'.posted_at_utc.isSome = true := by
  induction ops generalizing s r with
  | nil => exact ⟨r, hfind, hposted⟩
  | cons op ops ih =>
    have hstep : ∃ r₁, (applyOp s op).events.find? (fun t => t.id == eventId) = some r₁ ∧
        r₁.posted_at_utc.isSome = true := by
      cases op with
      | upsert ev =>
        show ∃ r₁, (upsert_event s ev).events.find? _ = some r₁ ∧ _
        unfold upsert_event
        by_cases hex : s.events.any (fun t => t.id == ev.id) = true
        · rw [if_pos hex]
          have hpres : ∀ t : StoredEventRecord,
              ((if t.id == ev.id then
                  { t with payload := ev, last_seen_utc := ev.scraped_at_utc }
                else t).id == eventId) = (t.id == eventId) :=
            fun t => by rw [upsert_f_id]
          rw [find?_map_pres _ _ _ hpres, hfind, Option.map_some']
          refine ⟨_, rfl, ?_⟩
          by_cases h : (r.id == ev.id) = true
          · rw [if_pos h]
            exact hposted
          · rw [if_neg h]
            exact hposted
        · rw [if_neg hex]
          exact ⟨r, find?_append_left _ _ _ _ hfind, hposted⟩
      | markPosted pid fb now =>
        show ∃ r₁, (mark_posted s pid fb now).events.find? _ = some r₁ ∧ _
        unfold mark_posted
        have hpres : ∀ t : StoredEventRecord,
            ((if t.id == pid then { t with posted_at_utc := some now }
              else t).id == eventId) = (t.id == eventId) :=
          fun t => by rw [mark_f_id]
        rw [find?_map_pres _ _ _ hpres, hfind, Option.map_some']
        refine ⟨_, rfl, ?_⟩
        by_cases h : (r.id == pid) = true
        · rw [if_pos h]
          rfl
        · rw [if_neg h]
          exact hposted
    obtain ⟨r₁, hf₁, hp₁⟩ := hstep
    have : applyOps s (op :: ops) = applyOps (applyOp s op) ops := by
      simp [applyOps, List.foldl_cons]
    rw [this]
    exact ih _ _ hf₁ hp₁

/-- C4 witness: re-upserting the same event over a posted row keeps the
posted flag set. -/
theorem c4_witness :
    ∃ r', (applyOps storePosted
        [StoreOp.upsert (evAt "p3" "2025-03-01T00:00:00+00:00"),
         StoreOp.markPosted "p3" "fb1" "2025-01-02 00:00:00"]).events.find?
        (fun t => t.id == "p3") = some r' ∧ r'.posted_at_utc.isSome = true :=
  c4_posted_never_cleared _ storePosted "p3" recPosted rfl rfl

/-! ## Identity hashing (C2 and C6) -/

theorem shaRound_length (st : List Nat) (kw : Nat × Nat) :
    (shaRound st kw).length = st.length := by
  unfold shaRound
  split <;> simp

theorem foldl_shaRound_length (l : List (Nat × Nat)) :
    ∀ h : List Nat, (l.foldl shaRound h).length = h.length := by
  induction l with
  | nil => intro h; rfl
  | cons kw l ih =>
    intro h
    rw [List.foldl_cons, ih, shaRound_length]

theorem shaCompress_length (h b : List Nat) : (shaCompress h b).length = h.length := by
  unfold shaCompress
  rw [List.length_map, List.length_zip, foldl_shaRound_length]
  exact Nat.min_self _

theorem foldl_shaCompress_length (bs : List (List Nat)) :
    ∀ h : List Nat, (bs.foldl shaCompress h).length = h.length := by
  induction bs with
  | nil => intro h; rfl
  | cons b bs ih =>
    intro h
    rw [List.foldl_cons, ih, shaCompress_length]

theorem flatMap_length_const {α β : Type} (l : List α) (f : α → List β) (k : Nat)
    (hf : ∀ a, (f a).length = k) : (l.flatMap f).length = l.length * k := by
  induction l with
  | nil => simp
  | cons a l ih =>
    rw [List.flatMap_cons, List.length_append, hf, ih, List.length_cons]
    ring

theorem sha256_length (msg : List Nat) : (sha256 msg).length = 32 := by
  unfold sha256
  rw [flatMap_length_const _
    (fun w => [(w >>> 24) % 256, (w >>> 16) % 256, (w >>> 8) % 256, w % 256]) 4
    (fun w => rfl), foldl_shaCompress_length]
  rfl

theorem flatMap_hexByte_length (bs : List Nat) : (bs.flatMap hexByte).length = bs.length * 2 :=
  flatMap_length_const bs hexByte 2 (fun _ => rfl)

theorem hexStr_length (bs : List Nat) : (hexStr bs).length = bs.length * 2 := by
  show (bs.flatMap hexByte).length = bs.length * 2
  exact flatMap_hexByte_length bs

theorem hexStr_toList_length (bs : List Nat) : (hexStr bs).toList.length = bs.length * 2 :=
  flatMap_hexByte_length bs

theorem strmk_take_length (l : List Char) (n : Nat) (h : n ≤ l.length) :
    (String.mk (l.take n)).length = n := by
  show (l.take n).length = n
  rw [List.length_take]
  omega

theorem str_ne_of_length_ne (a b : String) (h : a.length ≠ b.length) : a ≠ b := by
  intro he
  rw [he] at h
  exact h rfl

/-- C6 (amended): the stored id is the first sixteen hexadecimal characters
(64 bits) of the SHA-256 digest of the composite key
`venue_id | start_utc | lowercased main artist` — a truncated prefix, never
the full 64-character digest. -/
theorem c6_truncated_id (raw : RawEvent) (nowSecs : Int) (ev : Event)
    (h : normalize_event raw nowSecs = some ev) :
    ev.id = String.mk ((hexStr (sha256 (utf8 (identityKey raw.venue_id ev.start_utc
        ((raw.artists.get? 0).getD "TBA"))))).toList.take 16) ∧
    ev.id.length = 16 ∧
    (hexStr (sha256 (utf8 (identityKey raw.venue_id ev.start_utc
        ((raw.artists.get? 0).getD "TBA"))))).length = 64 ∧
    ev.id ≠ hexStr (sha256 (utf8 (identityKey raw.venue_id ev.start_utc
        ((raw.artists.get? 0).getD "TBA")))) := by
  cases hp : parse_local raw.start raw.timezone with
  | none =>
    unfold normalize_event at h
    rw [hp] at h
    exact absurd h (by simp)
  | some dt =>
    unfold normalize_event at h
    rw [hp] at h
    simp only [Option.some.injEq] at h
    subst h
    have hlen64 : (hexStr (sha256 (utf8 (identityKey raw.venue_id
        (toRfc3339 dt.utcSecs 0) ((raw.artists.get? 0).getD "TBA"))))).length = 64 := by
      rw [hexStr_length, sha256_length]
    have h16 : (String.mk ((hexStr (sha256 (utf8 (identityKey raw.venue_id
        (toRfc3339 dt.utcSecs 0) ((raw.artists.get? 0).getD "TBA"))))).toList.take
          16)).length = 16 :=
      strmk_take_length _ 16 (by rw [hexStr_toList_length, sha256_length]; norm_num)
    refine ⟨rfl, h16, hlen64, ?_⟩
    refine str_ne_of_length_ne _ _ ?_
    rw [h16, hlen64]
    norm_num

/-- C6 counterexample: the stored id of a concrete normalized event is the
16-character prefix, not the full 64-character SHA-256 hex digest of the
composite key. -/
theorem c6_claim_false :
    (normalize_event rawBand 0).map (fun ev => ev.id) = some "fb501d6632abd0f4" ∧
    hexStr (sha256 (utf8 "pine_box|2025-01-01T00:00:00+00:00|band")) =
      "fb501d6632abd0f44aadedbb8d24732b5994153872cdb6a541fc987e2af43ea5" ∧
    ("fb501d6632abd0f4" : String) ≠
      "fb501d6632abd0f44aadedbb8d24732b5994153872cdb6a541fc987e2af43ea5" :=
  ⟨by decide, by decide, by decide⟩

/-- C6 witness: the truncation theorem applied to `rawBand`. -/
theorem c6_witness :
    normalize_event rawBand 0 = some evBandNorm ∧ evBandNorm.id.length = 16 :=
  ⟨rfl, (c6_truncated_id rawBand 0 evBandNorm rfl).2.1⟩

/-- C2 (amended): the id is a pure function of the venue id, the resolved
start time and the lowercased main artist (first artist name, `"TBA"` when
the list is empty): two raw events agreeing on those — whatever their other
fields, e.g. price text and extra metadata — normalize to the same id.
(Case is folded; surrounding whitespace is NOT stripped — see
`c2_claim_false`.) -/
theorem c2_id_pure_function (r₁ r₂ : RawEvent) (n₁ n₂ : Int) (e₁ e₂ : Event)
    (hv : r₁.venue_id = r₂.venue_id)
    (hstart : parse_local r₁.start r₁.timezone = parse_local r₂.start r₂.timezone)
    (hart : lowerStr ((r₁.artists.get? 0).getD "TBA") =
      lowerStr ((r₂.artists.get? 0).getD "TBA"))
    (h₁ : normalize_event r₁ n₁ = some e₁)
    (h₂ : normalize_event r₂ n₂ = some e₂) :
    e₁.id = e₂.id := by
  cases hp₁ : parse_local r₁.start r₁.timezone with
  | none =>
    unfold normalize_event at h₁
    rw [hp₁] at h₁
    exact absurd h₁ (by simp)
  | some dt =>
    have hp₂ : parse_local r₂.start r₂.timezone = some dt := by rw [← hstart, hp₁]
    unfold normalize_event at h₁ h₂
    rw [hp₁] at h₁
    rw [hp₂] at h₂
    simp only [Option.some.injEq] at h₁ h₂
    subst h₁
    subst h₂
    have harg : identityKey r₁.venue_id (toRfc3339 dt.utcSecs 0)
        ((r₁.artists.get? 0).getD "TBA") =
        identityKey r₂.venue_id (toRfc3339 dt.utcSecs 0)
          ((r₂.artists.get? 0).getD "TBA") := by
      unfold identityKey
      rw [hv, hart]
    show String.mk ((hexStr (sha256 (utf8 (identityKey r₁.venue_id
        (toRfc3339 dt.utcSecs 0) ((r₁.artists.get? 0).getD "TBA"))))).toList.take 16) =
      String.mk ((hexStr (sha256 (utf8 (identityKey r₂.venue_id
        (toRfc3339 dt.utcSecs 0) ((r₂.artists.get? 0).getD "TBA"))))).toList.take 16)
    rw [harg]

/-- C2 counterexample: two raw events agreeing on venue, start string and
first artist up to surrounding whitespace (`"Band"` vs `"Band "`) normalize
to different ids — the code lowercases but never trims the artist name. -/
theorem c2_claim_false :
    (normalize_event rawBand 0).map (fun ev => ev.id) = some "fb501d6632abd0f4" ∧
    (normalize_event rawBandSpace 0).map (fun ev => ev.id) = some "1562b97d79e2c1eb" ∧
    (normalize_event rawBand 0).map (fun ev => ev.id) ≠
      (normalize_event rawBandSpace 0).map (fun ev => ev.id) ∧
    rawBand.venue_id = rawBandSpace.venue_id ∧
    rawBand.start = rawBandSpace.start ∧
    rawBand.artists = ["Band"] ∧ rawBandSpace.artists = ["Band "] := by
  refine ⟨by decide, by decide, by decide, rfl, rfl, rfl, rfl⟩

/-- C2 witness: `rawBand` and `rawBandPriced` differ only in price text,
extra metadata and scrape time, and get the same id. -/
theorem c2_witness : evBandNorm.id = evBandPricedNorm.id :=
  c2_id_pure_function rawBand rawBandPriced 0 86400 evBandNorm evBandPricedNorm
    rfl rfl rfl rfl rfl

/-! ## Ordering lemmas for the pending query (towards C3 and C7) -/

theorem lexLeCh_total : ∀ a b : List Char, lexLeCh a b = true ∨ lexLeCh b a = true := by
  intro a
  induction a with
  | nil => intro b; left; rfl
  | cons x xs ih =>
    intro b
    cases b with
    | nil => right; rfl
    | cons y ys =>
      by_cases h1 : x.toNat < y.toNat
      · left
        simp [lexLeCh, h1]
      · by_cases h2 : y.toNat < x.toNat
        · right
          simp [lexLeCh, h2]
        · cases ih ys with
          | inl h => left; simp [lexLeCh, h1, h2, h]
          | inr h => right; simp [lexLeCh, h1, h2, h]

theorem lexLeCh_trans : ∀ a b c : List Char,
    lexLeCh a b = true → lexLeCh b c = true → lexLeCh a c = true := by
  intro a
  induction a with
  | nil => intro b c _ _; rfl
  | cons x xs ih =>
    intro b c hab hbc
    cases b with
    | nil => exact absurd hab (by simp [lexLeCh])
    | cons y ys =>
      cases c with
      | nil => exact absurd hbc (by simp [lexLeCh])
      | cons z zs =>
        simp only [lexLeCh] at hab hbc ⊢
        by_cases hxy : x.toNat < y.toNat
        · by_cases hyz : y.toNat < z.toNat
          · have : x.toNat < z.toNat := lt_trans hxy hyz
            simp [this]
          · by_cases hzy : z.toNat < y.toNat
            · simp [hyz, hzy] at hbc
            · have hyzeq : y.toNat = z.toNat := by omega
              have : x.toNat < z.toNat := hyzeq ▸ hxy
              simp [this]
        · by_cases hyx : y.toNat < x.toNat
          · simp [hxy, hyx] at hab
          · have hxyeq : x.toNat = y.toNat := by omega
            rw [if_neg hxy, if_neg hyx] at hab
            by_cases hyz : y.toNat < z.toNat
            · have : x.toNat < z.toNat := hxyeq ▸ hyz
              simp [this]
            · by_cases hzy : z.toNat < y.toNat
              · simp [hyz, hzy] at hbc
              · rw [if_neg hyz, if_neg hzy] at hbc
                have h1 : ¬x.toNat < z.toNat := by omega
                have h2 : ¬z.toNat < x.toNat := by omega
                rw [if_neg h1, if_neg h2]
                exact ih ys zs hab hbc

theorem recLe_total (a b : StoredEventRecord) : recLe a b = true ∨ recLe b a = true :=
  lexLeCh_total _ _

theorem recLe_trans (a b c : StoredEventRecord)
    (hab : recLe a b = true) (hbc : recLe b c = true) : recLe a c = true :=
  lexLeCh_trans _ _ _ hab hbc

theorem mem_ordInsert {α : Type} (le : α → α → Bool) (a x : α) (l : List α) :
    x ∈ ordInsert le a l ↔ x = a ∨ x ∈ l := by
  induction l with
  | nil => simp [ordInsert]
  | cons b l ih =>
    unfold ordInsert
    by_cases h : le a b = true
    · rw [if_pos h]
      simp [or_comm, or_assoc, or_left_comm]
    · rw [if_neg h]
      simp only [List.mem_cons, ih]
      tauto

theorem mem_insSort {α : Type} (le : α → α → Bool) (x : α) (l : List α) :
    x ∈ insSort le l ↔ x ∈ l := by
  induction l with
  | nil => simp [insSort]
  | cons a l ih =>
    unfold insSort
    rw [mem_ordInsert]
    simp [ih]

theorem pairwise_ordInsert {α : Type} (le : α → α → Bool)
    (htot : ∀ x y, le x y = true ∨ le y x = true)
    (htrans : ∀ x y z, le x y = true → le y z = true → le x z = true)
    (a : α) (l : List α) (h : l.Pairwise (fun x y => le x y = true)) :
    (ordInsert le a l).Pairwise (fun x y => le x y = true) := by
  induction l with
  | nil => simp [ordInsert]
  | cons b l ih =>
    unfold ordInsert
    by_cases hab : le a b = true
    · rw [if_pos hab]
      refine List.Pairwise.cons ?_ h
      intro x hx
      rcases List.mem_cons.mp hx with hxb | hxl
      · exact hxb ▸ hab
      · exact htrans a b x hab ((List.pairwise_cons.mp h).1 x hxl)
    · rw [if_neg hab]
      have hba : le b a = true := (htot a b).resolve_left hab
      rw [List.pairwise_cons] at h
      refine List.Pairwise.cons ?_ (ih h.2)
      intro x hx
      rcases (mem_ordInsert le a x l).mp hx with hxa | hxl
      · exact hxa ▸ hba
      · exact h.1 x hxl

theorem pairwise_insSort {α : Type} (le : α → α → Bool)
    (htot : ∀ x y, le x y = true ∨ le y x = true)
    (htrans : ∀ x y z, le x y = true → le y z = true → le x z = true)
    (l : List α) : (insSort le l).Pairwise (fun x y => le x y = true) := by
  induction l with
  | nil => simp [insSort]
  | cons a l ih => exact pairwise_ordInsert le htot htrans a (insSort le l) ih

theorem pairwise_filterMap {α β : Type} (f : α → Option β)
    (R : α → α → Prop) (S : β → β → Prop)
    (hf : ∀ a b a' b', f a = some a' → f b = some b' → R a b → S a' b')
    (l : List α) (h : l.Pairwise R) : (l.filterMap f).Pairwise S := by
  induction l with
  | nil => simp
  | cons a l ih =>
    rw [List.pairwise_cons] at h
    rw [List.filterMap_cons]
    cases hfa : f a with
    | none => exact ih h.2
    | some a' =>
      refine List.Pairwise.cons ?_ (ih h.2)
      intro b' hb'
      obtain ⟨b, hbmem, hfb⟩ := List.mem_filterMap.mp hb'
      exact hf a b a' b' hfa hfb (h.1 b hbmem)

/-- Membership characterization of the pending query: a row is produced
exactly from a stored, unposted record whose start string textually
compares at or above the `datetime('now')` string and parses to a
`days_until`. -/
theorem mem_pending_with_days (s : Store) (nowSecs : Int) (row : PendingRow) :
    row ∈ pending_with_days s nowSecs ↔
      ∃ rec, rec ∈ s.events ∧ rec.posted_at_utc = none ∧
        strGeB rec.payload.start_utc (sqliteNowStr nowSecs) = true ∧
        days_until_of rec.payload.start_utc nowSecs = some row.days_until ∧
        row.event = rec.payload := by
  unfold pending_with_days
  rw [List.mem_filterMap]
  constructor
  · rintro ⟨rec, hmem, hrow⟩
    rw [mem_insSort, List.mem_filter] at hmem
    obtain ⟨hmem, hsel⟩ := hmem
    unfold pendingFilter at hsel
    rw [Bool.and_eq_true] at hsel
    obtain ⟨hposted, hge⟩ := hsel
    cases hd : days_until_of rec.payload.start_utc nowSecs with
    | none => rw [hd] at hrow; exact absurd hrow (by simp)
    | some d =>
      rw [hd] at hrow
      simp only [Option.map_some', Option.some.injEq] at hrow
      refine ⟨rec, hmem, by simpa using hposted, hge, ?_, ?_⟩
      · rw [hd, ← hrow]
      · rw [← hrow]
  · rintro ⟨rec, hmem, hposted, hge, hd, hev⟩
    refine ⟨rec, ?_, ?_⟩
    · rw [mem_insSort, List.mem_filter]
      refine ⟨hmem, ?_⟩
      unfold pendingFilter
      rw [Bool.and_eq_true]
      exact ⟨by simp [hposted], hge⟩
    · rw [hd]
      simp only [Option.map_some', Option.some.injEq]
      cases row with
      | mk ev d => simp only at hd hev ⊢; rw [hev]

/-- Sortedness of the pending rows by start string. -/
theorem pairwise_pending_with_days (s : Store) (nowSecs : Int) :
    (pending_with_days s nowSecs).Pairwise
      (fun a b => strLeB a.event.start_utc b.event.start_utc = true) := by
  unfold pending_with_days
  refine pairwise_filterMap _ (fun a b => recLe a b = true) _ ?_ _
    (pairwise_insSort recLe recLe_total recLe_trans _)
  intro a b a' b' ha hb hR
  have hae : a'.event = a.payload := by
    cases hd : days_until_of a.payload.start_utc nowSecs with
    | none => rw [hd] at ha; exact absurd ha (by simp)
    | some d =>
      rw [hd] at ha
      simp only [Option.map_some', Option.some.injEq] at ha
      rw [← ha]
  have hbe : b'.event = b.payload := by
    cases hd : days_until_of b.payload.start_utc nowSecs with
    | none => rw [hd] at hb; exact absurd hb (by simp)
    | some d =>
      rw [hd] at hb
      simp only [Option.map_some', Option.some.injEq] at hb
      rw [← hb]
    
  rw [hae, hbe]
  exact hR

/-! ## Bucket-map lemmas -/

theorem lookup_btInsert_self (k : String) (r : PendingRow)
    (m : List (String × List PendingRow)) :
    lookupAssoc (btInsert k r m) k = some ((lookupAssoc m k).getD [] ++ [r]) := by
  induction m with
  | nil => simp [btInsert, lookupAssoc]
  | cons p m ih =>
    obtain ⟨k', l⟩ := p
    unfold btInsert
    by_cases h : k = k'
    · rw [if_pos h]
      subst h
      simp [lookupAssoc]
    · rw [if_neg h]
      have hb : (k' == k) = false := by
        rw [beq_eq_false_iff_ne]
        exact fun hc => h hc.symm
      simp only [lookupAssoc, List.find?_cons]
      rw [show (((k', l) : String × List PendingRow).1 == k) = false from hb]
      exact ih

theorem lookup_btInsert_ne (k : String) (r : PendingRow)
    (m : List (String × List PendingRow)) (k' : String) (h : k' ≠ k) :
    lookupAssoc (btInsert k r m) k' = lookupAssoc m k' := by
  induction m with
  | nil =>
    simp only [btInsert, lookupAssoc, List.find?_cons, List.find?_nil]
    rw [show ((( k, [r]) : String × List PendingRow).1 == k') = false from
      beq_eq_false_iff_ne.mpr (fun hc => h hc.symm)]
  | cons p m ih =>
    obtain ⟨k₀, l⟩ := p
    unfold btInsert
    by_cases hk : k = k₀
    · rw [if_pos hk]
      subst hk
      have hb : (k == k') = false := beq_eq_false_iff_ne.mpr (fun hc => h hc.symm)
      simp only [lookupAssoc, List.find?_cons]
      rw [show (((k, l ++ [r]) : String × List PendingRow).1 == k') = false from hb]
    · rw [if_neg hk]
      simp only [lookupAssoc, List.find?_cons]
      by_cases hb : (k₀ == k') = true
      · rw [show (((k₀, l) : String × List PendingRow).1 == k') = true from hb]
      · rw [show (((k₀, l) : String × List PendingRow).1 == k') = false from
          Bool.not_eq_true _ ▸ hb]
        exact ih

theorem bucketFold_getD (rows : List PendingRow) (k : String) :
    ∀ m, (lookupAssoc (rows.foldl (fun m r => btInsert (bucketOf r.days_until) r m) m)
        k).getD [] =
      (lookupAssoc m k).getD [] ++
        rows.filter (fun r => bucketOf r.days_until == k) := by
  induction rows with
  | nil => intro m; simp
  | cons r rows ih =>
    intro m
    rw [List.foldl_cons, ih]
    by_cases hk : bucketOf r.days_until = k
    · rw [List.filter_cons_of_pos (by simpa using hk)]
      rw [← hk, lookup_btInsert_self]
      simp
    · rw [List.filter_cons_of_neg (by simpa using hk)]
      rw [lookup_btInsert_ne _ _ _ _ (fun hc => hk hc.symm)]

theorem bucketFold_none (rows : List PendingRow) (k : String) :
    ∀ m, (lookupAssoc (rows.foldl (fun m r => btInsert (bucketOf r.days_until) r m) m)
        k = none) ↔
      (lookupAssoc m k = none ∧
        rows.filter (fun r => bucketOf r.days_until == k) = []) := by
  induction rows with
  | nil => intro m; simp
  | cons r rows ih =>
    intro m
    rw [List.foldl_cons, ih]
    by_cases hk : bucketOf r.days_until = k
    · rw [List.filter_cons_of_pos (by simpa using hk)]
      rw [← hk, lookup_btInsert_self]
      simp
    · rw [List.filter_cons_of_neg (by simpa using hk)]
      rw [lookup_btInsert_ne _ _ _ _ (fun hc => hk hc.symm)]

/-- The entries listed under bucket `k` are exactly the pending rows whose
`days_until` falls in bucket `k`, in query order. -/
theorem bucketList_eq_filter (s : Store) (nowSecs : Int) (k : String) :
    (lookupAssoc (list_pending_buckets s nowSecs) k).getD [] =
      (pending_with_days s nowSecs).filter (fun r => bucketOf r.days_until == k) := by
  unfold list_pending_buckets
  rw [bucketFold_getD]
  rfl

theorem mem_bucketList (s : Store) (nowSecs : Int) (k : String) (row : PendingRow) :
    row ∈ (lookupAssoc (list_pending_buckets s nowSecs) k).getD [] ↔
      row ∈ pending_with_days s nowSecs ∧ bucketOf row.days_until = k := by
  rw [bucketList_eq_filter, List.mem_filter]
  constructor
  · rintro ⟨h1, h2⟩
    exact ⟨h1, by simpa using h2⟩
  · rintro ⟨h1, h2⟩
    exact ⟨h1, by simpa using h2⟩

/-- C3 (amended): `pending_buckets` selects the stored events with
`posted_at_utc` absent whose RFC 3339 start string compares at or above the
`datetime('now')` string under SQLite TEXT comparison (this matches the
instant order whenever the calendar dates differ, but also admits same-day
events already past — see `c3_claim_false`); each selected event lands in
exactly the bucket of its rounded `days_until`, with `DAY_OF` =
`(-∞, 0]` (equal to `{0}` for instant-future events), `LT_1W` = `[1,7)`,
`LT_2W` = `[7,14)`, `LT_1M` = `[14,30)`, `LT_2M` = `[30,60)`, `GTE_2M` =
`[60,∞)`; the spec's six example start times at
`now = 2025-01-01T00:00:00Z` map to the six buckets as claimed; and each
bucket is ordered by ascending `start_utc` string. -/
theorem c3_bucketing :
    (∀ (s : Store) (nowSecs : Int),
      (∀ row : PendingRow, row ∈ pending_with_days s nowSecs ↔
        ∃ rec, rec ∈ s.events ∧ rec.posted_at_utc = none ∧
          strGeB rec.payload.start_utc (sqliteNowStr nowSecs) = true ∧
          days_until_of rec.payload.start_utc nowSecs = some row.days_until ∧
          row.event = rec.payload) ∧
      (∀ (row : PendingRow) (k : String),
        row ∈ (lookupAssoc (list_pending_buckets s nowSecs) k).getD [] ↔
          row ∈ pending_with_days s nowSecs ∧ bucketOf row.days_until = k) ∧
      (∀ k : String,
        ((lookupAssoc (list_pending_buckets s nowSecs) k).getD []).Pairwise
          (fun a b => strLeB a.event.start_utc b.event.start_utc = true))) ∧
    (∀ d : Int,
      (bucketOf d = "DAY_OF" ↔ d ≤ 0) ∧
      (bucketOf d = "LT_1W" ↔ 1 ≤ d ∧ d < 7) ∧
      (bucketOf d = "LT_2W" ↔ 7 ≤ d ∧ d < 14) ∧
      (bucketOf d = "LT_1M" ↔ 14 ≤ d ∧ d < 30) ∧
      (bucketOf d = "LT_2M" ↔ 30 ≤ d ∧ d < 60) ∧
      (bucketOf d = "GTE_2M" ↔ 60 ≤ d)) ∧
    (((lookupAssoc (list_pending_buckets storeSix nowJan1) "DAY_OF").getD []).map
        (fun r => (r.event.id, r.days_until)) = [("e1", 0)] ∧
      ((lookupAssoc (list_pending_buckets storeSix nowJan1) "LT_1W").getD []).map
        (fun r => (r.event.id, r.days_until)) = [("e2", 3)] ∧
      ((lookupAssoc (list_pending_buckets storeSix nowJan1) "LT_2W").getD []).map
        (fun r => (r.event.id, r.days_until)) = [("e3", 7)] ∧
      ((lookupAssoc (list_pending_buckets storeSix nowJan1) "LT_1M").getD []).map
        (fun r => (r.event.id, r.days_until)) = [("e4", 19)] ∧
      ((lookupAssoc (list_pending_buckets storeSix nowJan1) "LT_2M").getD []).map
        (fun r => (r.event.id, r.days_until)) = [("e5", 40)] ∧
      ((lookupAssoc (list_pending_buckets storeSix nowJan1) "GTE_2M").getD []).map
        (fun r => (r.event.id, r.days_until)) = [("e6", 151)]) := by
  refine ⟨fun s nowSecs => ⟨mem_pending_with_days s nowSecs,
      fun row k => mem_bucketList s nowSecs k row, ?_⟩, ?_,
      by decide, by decide, by decide, by decide, by decide, by decide⟩
  · intro k
    rw [bucketList_eq_filter]
    exact List.Pairwise.sublist (List.filter_sublist _) (pairwise_pending_with_days s nowSecs)
  · intro d
    unfold bucketOf
    refine ⟨?_, ?_, ?_, ?_, ?_, ?_⟩ <;>
      split_ifs <;> simp_all <;> omega

/-- C3 counterexample: with `now = 2025-01-01T23:00:00Z`, the stored event
at `2025-01-01T00:00:00Z` starts strictly before `now` as an instant, yet
the textual comparison selects it (`'T' > ' '`), and it lands in `DAY_OF`
with `days_until = -1` — contradicting both "selects exactly the stored
events with start_utc >= now" and "DAY_OF = 0". -/
theorem c3_claim_false :
    sqliteTimeSecs "2025-01-01T00:00:00+00:00" = some nowJan1 ∧
    nowJan1 < nowLate ∧
    storeLate.events.map (fun r => (r.id, r.payload.start_utc, r.posted_at_utc)) =
      [("p1", "2025-01-01T00:00:00+00:00", none)] ∧
    ((lookupAssoc (list_pending_buckets storeLate nowLate) "DAY_OF").getD []).map
      (fun r => (r.event.id, r.days_until)) = [("p1", -1)] :=
  ⟨by decide, by decide, by decide, by decide⟩

/-- C3 witness: the bucket-range part of `c3_bucketing` at `days_until = 3`. -/
theorem c3_witness : bucketOf 3 = "LT_1W" ∧ ((1 : Int) ≤ 3 ∧ (3 : Int) < 7) :=
  ⟨((c3_bucketing.2.1 3).2.1).mpr (by decide), by decide⟩

/-- C7 (amended): the store never expires stale pending events — every
stored row stays retrievable through `get_event` — but an unposted event
whose start string compares below the `datetime('now')` string (in
particular, any event dated before the query date) does NOT appear in
`pending_buckets`: every bucket entry comes from a record passing the
textual `start_utc >= now` filter. -/
theorem c7_stale_pending :
    (∀ (s : Store) (rec : StoredEventRecord), rec ∈ s.events →
      ∃ p, get_event s rec.id = some p) ∧
    (∀ (s : Store) (nowSecs : Int) (row : PendingRow) (k : String),
      row ∈ (lookupAssoc (list_pending_buckets s nowSecs) k).getD [] →
      ∃ rec, rec ∈ s.events ∧ rec.posted_at_utc = none ∧
        strGeB rec.payload.start_utc (sqliteNowStr nowSecs) = true ∧
        row.event = rec.payload) ∧
    (get_event storeStale "p2").isSome = true ∧
    list_pending_buckets storeStale nowJan1 = [] ∧
    (pending_posts storeStale nowJan1).length = 0 := by
  refine ⟨?_, ?_, by decide, rfl, by decide⟩
  · intro s rec hmem
    cases hf : s.events.find? (fun t => t.id == rec.id) with
    | none =>
      have := List.find?_eq_none.mp hf rec hmem
      exact absurd (beq_self_eq_true rec.id) (by simpa using this)
    | some r => exact ⟨r.payload, by simp [get_event, hf]⟩
  · intro s nowSecs row k hrow
    have h1 := ((mem_bucketList s nowSecs k row).mp hrow).1
    obtain ⟨rec, hmem, hposted, hge, -, hev⟩ :=
      (mem_pending_with_days s nowSecs row).mp h1
    exact ⟨rec, hmem, hposted, hge, hev⟩

/-- C7 counterexample: an unposted event dated 2024-12-31, queried at
`now = 2025-01-01T00:00:00Z`, is still stored and retrievable but appears
in no bucket of `pending_buckets` — contrary to the claim that it "still
appears". -/
theorem c7_claim_false :
    sqliteTimeSecs "2024-12-31T23:00:00+00:00" = some (civilSecs 2024 12 31 23 0 0) ∧
    civilSecs 2024 12 31 23 0 0 < nowJan1 ∧
    storeStale.events.map (fun r => (r.id, r.payload.start_utc, r.posted_at_utc)) =
      [("p2", "2024-12-31T23:00:00+00:00", none)] ∧
    list_pending_buckets storeStale nowJan1 = [] ∧
    (get_event storeStale "p2").isSome = true :=
  ⟨by decide, by decide, by decide, rfl, by decide⟩

/-- C7 witness: retrievability applied to the stale stored event. -/
theorem c7_witness :
    ∃ p, get_event storeStale (recAt "p2" "2024-12-31T23:00:00+00:00").id = some p :=
  c7_stale_pending.1 storeStale (recAt "p2" "2024-12-31T23:00:00+00:00")
    (List.mem_cons_self _ _)

/-! ## Frontend bucket-normalization lemmas (towards C8) -/

theorem setAssoc_keys (m : List (String × List PendingRow)) (k : String)
    (v : List PendingRow) :
    (setAssoc m k v).map (fun p => p.1) = m.map (fun p => p.1) := by
  unfold setAssoc
  rw [List.map_map]
  refine List.map_congr_left (fun p _ => ?_)
  show (if p.1 == k then (p.1, v) else p).1 = p.1
  by_cases h : (p.1 == k) = true
  · rw [if_pos h]
  · rw [if_neg h]

theorem normalizeBuckets_keys_aux (input : List (String × List PendingRow)) :
    ∀ acc, ((input.foldl
        (fun res p => if bucketKeysTS.contains p.1 then setAssoc res p.1 p.2 else res)
        acc).map (fun p => p.1)) = acc.map (fun p => p.1) := by
  induction input with
  | nil => intro acc; rfl
  | cons p input ih =>
    intro acc
    rw [List.foldl_cons]
    by_cases h : bucketKeysTS.contains p.1 = true
    · rw [if_pos h, ih, setAssoc_keys]
    · rw [if_neg h, ih]

theorem lookupAssoc_cons_hit {α : Type} (k₀ : String) (v₀ : α)
    (m : List (String × α)) (k : String) (h : k₀ = k) :
    lookupAssoc ((k₀, v₀) :: m) k = some v₀ := by
  simp only [lookupAssoc, List.find?_cons]
  rw [show (((k₀, v₀) : String × α).1 == k) = true from by simp [h]]
  rfl

theorem lookupAssoc_cons_miss {α : Type} (k₀ : String) (v₀ : α)
    (m : List (String × α)) (k : String) (h : k₀ ≠ k) :
    lookupAssoc ((k₀, v₀) :: m) k = lookupAssoc m k := by
  simp only [lookupAssoc, List.find?_cons]
  rw [show (((k₀, v₀) : String × α).1 == k) = false from beq_eq_false_iff_ne.mpr h]

theorem key_mem_lookup {α : Type} (m : List (String × α)) (k : String)
    (h : k ∈ m.map (fun p => p.1)) : ∃ l, lookupAssoc m k = some l := by
  induction m with
  | nil => simp at h
  | cons p m ih =>
    rw [List.map_cons, List.mem_cons] at h
    obtain ⟨p1, p2⟩ := p
    by_cases hb : p1 = k
    · exact ⟨p2, lookupAssoc_cons_hit p1 p2 m k hb⟩
    · rw [lookupAssoc_cons_miss p1 p2 m k hb]
      exact ih (h.resolve_left (fun hc => hb hc.symm))

theorem lookup_eq_none_of_not_mem {α : Type} (m : List (String × α)) (k : String)
    (h : k ∉ m.map (fun p => p.1)) : lookupAssoc m k = none := by
  induction m with
  | nil => rfl
  | cons p m ih =>
    rw [List.map_cons, List.mem_cons] at h
    push_neg at h
    obtain ⟨p1, p2⟩ := p
    rw [lookupAssoc_cons_miss p1 p2 m k (fun hc => h.1 hc.symm)]
    exact ih h.2

theorem setAssoc_cons_hit (p1 : String) (p2 : List PendingRow)
    (m : List (String × List PendingRow)) (k : String) (v : List PendingRow)
    (h : p1 = k) :
    setAssoc ((p1, p2) :: m) k v = (p1, v) :: setAssoc m k v := by
  unfold setAssoc
  rw [List.map_cons]
  rw [show (if ((p1, p2) : String × List PendingRow).1 == k then (((p1, p2) :
    String × List PendingRow).1, v) else (p1, p2)) = (p1, v) from by simp [h]]

theorem setAssoc_cons_miss (p1 : String) (p2 : List PendingRow)
    (m : List (String × List PendingRow)) (k : String) (v : List PendingRow)
    (h : p1 ≠ k) :
    setAssoc ((p1, p2) :: m) k v = (p1, p2) :: setAssoc m k v := by
  unfold setAssoc
  rw [List.map_cons]
  rw [show (if ((p1, p2) : String × List PendingRow).1 == k then (((p1, p2) :
    String × List PendingRow).1, v) else (p1, p2)) = (p1, p2) from by
    rw [if_neg (by simpa using h)]]

theorem lookup_setAssoc_self (m : List (String × List PendingRow)) (k : String)
    (v : List PendingRow) (h : (lookupAssoc m k).isSome = true) :
    lookupAssoc (setAssoc m k v) k = some v := by
  induction m with
  | nil => simp [lookupAssoc] at h
  | cons p m ih =>
    obtain ⟨p1, p2⟩ := p
    by_cases hb : p1 = k
    · rw [setAssoc_cons_hit p1 p2 m k v hb]
      exact lookupAssoc_cons_hit p1 v _ k hb
    · rw [setAssoc_cons_miss p1 p2 m k v hb]
      rw [lookupAssoc_cons_miss p1 p2 m k hb] at h
      rw [lookupAssoc_cons_miss p1 p2 (setAssoc m k v) k hb]
      exact ih h

theorem lookup_setAssoc_ne (m : List (String × List PendingRow)) (k : String)
    (v : List PendingRow) (k' : String) (h : k' ≠ k) :
    lookupAssoc (setAssoc m k v) k' = lookupAssoc m k' := by
  induction m with
  | nil => rfl
  | cons p m ih =>
    obtain ⟨p1, p2⟩ := p
    by_cases hb : p1 = k
    · rw [setAssoc_cons_hit p1 p2 m k v hb]
      have hne : p1 ≠ k' := fun hc => h (hb ▸ hc).symm
      rw [lookupAssoc_cons_miss p1 v _ k' hne,
        lookupAssoc_cons_miss p1 p2 m k' hne]
      exact ih
    · rw [setAssoc_cons_miss p1 p2 m k v hb]
      by_cases hb2 : p1 = k'
      · rw [lookupAssoc_cons_hit p1 p2 (setAssoc m k v) k' hb2,
          lookupAssoc_cons_hit p1 p2 m k' hb2]
      · rw [lookupAssoc_cons_miss p1 p2 (setAssoc m k v) k' hb2,
          lookupAssoc_cons_miss p1 p2 m k' hb2]
        exact ih

theorem normalizeBuckets_lookup_aux (input : List (String × List PendingRow))
    (k : String) :
    ∀ acc, (lookupAssoc acc k).isSome = true →
      (input.map (fun p => p.1)).Nodup →
      lookupAssoc (input.foldl
        (fun res p => if bucketKeysTS.contains p.1 then setAssoc res p.1 p.2 else res)
        acc) k =
      (if bucketKeysTS.contains k = true ∧ (lookupAssoc input k).isSome = true
       then lookupAssoc input k else lookupAssoc acc k) := by
  induction input with
  | nil =>
    intro acc _ _
    rw [if_neg (by simp [lookupAssoc])]
    rfl
  | cons p input ih =>
    intro acc hacc hnd
    obtain ⟨k₀, v₀⟩ := p
    rw [List.map_cons, List.nodup_cons] at hnd
    rw [List.foldl_cons]
    by_cases hck : k₀ = k
    · subst hck
      have hrest : lookupAssoc input k₀ = none :=
        lookup_eq_none_of_not_mem input k₀ hnd.1
      have hin : lookupAssoc ((k₀, v₀) :: input) k₀ = some v₀ :=
        lookupAssoc_cons_hit k₀ v₀ input k₀ rfl
      by_cases hcont : bucketKeysTS.contains k₀ = true
      · rw [if_pos hcont]
        have hself : lookupAssoc (setAssoc acc k₀ v₀) k₀ = some v₀ :=
          lookup_setAssoc_self acc k₀ v₀ hacc
        rw [ih (setAssoc acc k₀ v₀) (by simp [hself]) hnd.2]
        rw [if_neg (fun hc => by rw [hrest] at hc; simp at hc)]
        rw [hself, hin]
        rw [if_pos ⟨hcont, by simp⟩]
      · rw [if_neg hcont]
        rw [ih acc hacc hnd.2]
        rw [if_neg (fun hc => by rw [hrest] at hc; simp at hc),
          if_neg (fun hc => hcont hc.1)]
    · have hmiss : lookupAssoc ((k₀, v₀) :: input) k = lookupAssoc input k :=
        lookupAssoc_cons_miss k₀ v₀ input k hck
      by_cases hcont : bucketKeysTS.contains k₀ = true
      · rw [if_pos hcont]
        have hacc' : (lookupAssoc (setAssoc acc k₀ v₀) k).isSome = true := by
          rw [lookup_setAssoc_ne acc k₀ v₀ k (fun hc => hck hc.symm)]
          exact hacc
        rw [ih (setAssoc acc k₀ v₀) hacc' hnd.2]
        rw [lookup_setAssoc_ne acc k₀ v₀ k (fun hc => hck hc.symm), hmiss]
      · rw [if_neg hcont]
        rw [ih acc hacc hnd.2, hmiss]

theorem lookup_createEmptyBuckets (k : String) (hk : k ∈ bucketKeysTS) :
    lookupAssoc createEmptyBuckets k = some [] := by
  fin_cases hk <;> rfl

/-- C8 (amended): the Rust `list_pending_buckets` map omits empty buckets
(see `c8_claim_false`); the frontend `normalizeBuckets` then restores them:
its result always carries exactly the six bucket keys in fixed order, every
bucket key maps to a present list, a missing input key yields the empty
list, and a present input key keeps its entries. -/
theorem c8_all_bucket_keys :
    (∀ input, (normalizeBuckets input).map (fun p => p.1) = bucketKeysTS) ∧
    (∀ input k, k ∈ bucketKeysTS →
      ∃ l, lookupAssoc (normalizeBuckets input) k = some l) ∧
    (∀ input k, (input.map (fun p => p.1)).Nodup → k ∈ bucketKeysTS →
      lookupAssoc (normalizeBuckets input) k = some ((lookupAssoc input k).getD [])) ∧
    (∀ (s : Store) (nowSecs : Int),
      (normalizeBuckets (list_pending_buckets s nowSecs)).map (fun p => p.1) =
        bucketKeysTS) := by
  have hkeys : ∀ input, (normalizeBuckets input).map (fun p => p.1) = bucketKeysTS := by
    intro input
    unfold normalizeBuckets
    rw [normalizeBuckets_keys_aux]
    rfl
  refine ⟨hkeys, ?_, ?_, fun s nowSecs => hkeys _⟩
  · intro input k hk
    exact key_mem_lookup _ k (by rw [hkeys]; exact hk)
  · intro input k hnd hk
    unfold normalizeBuckets
    rw [normalizeBuckets_lookup_aux input k createEmptyBuckets
      (by simp [lookup_createEmptyBuckets k hk]) hnd]
    cases hin : lookupAssoc input k with
    | none =>
      rw [if_neg (fun hc => by simp at hc), lookup_createEmptyBuckets k hk]
      rfl
    | some v =>
      rw [if_pos ⟨List.elem_eq_true_of_mem hk, rfl⟩]
      rfl

/-- C8 counterexample: on an empty store the Rust command returns an empty
map — `DAY_OF` (and every other bucket key) is absent, not present-but-
empty, contradicting the claim about the mapping returned by
`pending_buckets`. -/
theorem c8_claim_false :
    list_pending_buckets storeEmpty nowJan1 = [] ∧
    lookupAssoc (list_pending_buckets storeEmpty nowJan1) "DAY_OF" = none :=
  ⟨rfl, rfl⟩

/-- C8 witness: the value-preservation part of `c8_all_bucket_keys` on a
one-key input. -/
theorem c8_witness :
    ((([("LT_1W", ([] : List PendingRow))].map (fun p => p.1)).Nodup) ∧
      "DAY_OF" ∈ bucketKeysTS) ∧
    lookupAssoc (normalizeBuckets [("LT_1W", ([] : List PendingRow))]) "DAY_OF" =
      some ((lookupAssoc [("LT_1W", ([] : List PendingRow))] "DAY_OF").getD []) :=
  ⟨⟨by decide, by decide⟩,
    c8_all_bucket_keys.2.2.1 [("LT_1W", ([] : List PendingRow))] "DAY_OF"
      (by decide) (by decide)⟩

end ShowScraper
